import Mathlib

/-!
# A verification model of the graphinius graph compute engine

Shallow embedding of the core data model (BaseNode, typed graph overlay),
the ComputeGraph projections (adjListW, adjMatrix, adjMatrixW, clustCoef),
the array/dict PageRank implementations and the JSON weight parsing.

JavaScript numbers are modelled by `JsNum`: a rational together with the
special values `+Infinity`, `-Infinity`, `NaN` and `undefined` (the last
behaves like `NaN` under `isNaN`/comparisons, which is all the code uses).
Pure rational arithmetic stands in for IEEE doubles; the claims under
study are structural and do not depend on rounding.
-/
attribute [local semireducible] Rat.mul Rat.add Rat.sub Rat.inv Rat.ofScientific

deriving instance DecidableEq for Except

/-- Model of a JavaScript number as it flows through the graph code:
a rational, one of the infinities, `NaN`, or `undefined`
(an absent weight; `isNaN(undefined)` is `true` in JS). -/
inductive JsNum where
  | num (q : ℚ)
  | posInf
  | negInf
  | nan
  | undef
deriving DecidableEq, Repr

namespace JsNum

/-- JS `isNaN`: true on `NaN` and on `undefined`. -/
def isNaN : JsNum → Bool
  | nan => true
  | undef => true
  | _ => false

/-- JS `isFinite`. -/
def isFinite : JsNum → Bool
  | num _ => true
  | _ => false

/-- JS falsiness of a number-valued expression: `0`, `NaN` and
`undefined` are falsy, everything else is truthy. -/
def falsy : JsNum → Bool
  | num q => q = 0
  | nan => true
  | undef => true
  | _ => false

/-- JS `<` on numbers: any comparison involving `NaN`/`undefined` is
false, the infinities compare as expected. -/
def lt : JsNum → JsNum → Bool
  | num a, num b => a < b
  | num _, posInf => true
  | negInf, num _ => true
  | negInf, posInf => true
  | _, _ => false

/-- `NaN`-free (also `undefined`-free) values: on these, `lt` behaves
as the strict order of `ℚ ∪ \x7b±∞\x7d`. -/
def wellOrdered : JsNum → Prop
  | nan => False
  | undef => False
  | _ => True

instance : DecidablePred wellOrdered := fun w =>
  match w with
  | num _ => isTrue trivial
  | posInf => isTrue trivial
  | negInf => isTrue trivial
  | nan => isFalse id
  | undef => isFalse id

end JsNum

/-- An edge of the graph: id, label, the two endpoint node ids `a` and
`b`, directedness, and its weight (`undef` when the edge is
unweighted, mirroring `getWeight()` returning `undefined`). -/
structure Edge where
  id : String
  label : String
  a : String
  b : String
  directed : Bool
  weight : JsNum
deriving DecidableEq, Repr

namespace Edge

/-- The endpoint of `e` other than the node with id `nid`, resolved the
way the PageRank preprocessing does (`source = a; if a.id == node.id
then source = b`). -/
def otherId (e : Edge) (nid : String) : String :=
  if e.a = nid then e.b else e.a

end Edge

/-- State of a `BaseNode`: id, label, the three edge buckets (in
insertion order, keyed by the edge ids inside) and the four cached
degree counters. -/
structure BNode where
  id : String
  label : String
  in_edges : List Edge
  out_edges : List Edge
  und_edges : List Edge
  in_degree : Nat
  out_degree : Nat
  und_degree : Nat
  self_degree : Nat
deriving DecidableEq, Repr

namespace BNode

/-- `BaseNode.degree()` returns the undirected-degree counter. -/
def degree (n : BNode) : Nat := n.und_degree

/-- `BaseNode.outDegree()`. -/
def outDegree (n : BNode) : Nat := n.out_degree

/-- `BaseNode.inDegree()`. -/
def inDegree (n : BNode) : Nat := n.in_degree

/-- Bucket lookup `this._xxx_edges[edgeID]` as presence of the id. -/
def bucketHas (bucket : List Edge) (eid : String) : Bool :=
  bucket.any (fun e => e.id = eid)

/-- `prevNodes()`: for every in-edge, the neighbor entry `(edge.a, edge)`. -/
def prevNodes (n : BNode) : List (String × Edge) :=
  n.in_edges.map (fun e => (e.a, e))

/-- `nextNodes()`: for every out-edge, the neighbor entry `(edge.b, edge)`. -/
def nextNodes (n : BNode) : List (String × Edge) :=
  n.out_edges.map (fun e => (e.b, e))

/-- `connNodes()`: for every undirected edge, the other endpoint
(JS compares `nodes.a === this`, i.e. node identity; within a graph
identity coincides with id equality). -/
def connNodes (n : BNode) : List (String × Edge) :=
  n.und_edges.map (fun e => (if e.a = n.id then e.b else e.a, e))

/-- `reachNodes()`: `mergeArrays([nextNodes, connNodes], ne => identity++)`.
The identity function assigns a fresh value to each entry, so no
deduplication happens and the merge is plain concatenation. -/
def reachNodes (n : BNode) : List (String × Edge) :=
  n.nextNodes ++ n.connNodes

end BNode

/-- The node collection of a graph as seen by `ComputeGraph` and
PageRank: `getNodes()` in insertion order.  JS object keys are unique,
which well-formedness (`CGraph.wf`) records explicitly. -/
structure CGraph where
  nodes : List BNode
deriving DecidableEq, Repr

namespace CGraph

def nrNodes (g : CGraph) : Nat := g.nodes.length

def nodeIds (g : CGraph) : List String := g.nodes.map (fun n => n.id)

/-- `getNodeById`: dictionary lookup by id (first match). -/
def getNodeById (g : CGraph) (id : String) : BNode :=
  (g.nodes.find? (fun n => n.id = id)).getD
    ⟨id, id, [], [], [], 0, 0, 0, 0⟩

/-- Well-formedness of a graph state, the invariants §3 of the spec
promises for graphs built through the public interface:
unique node ids, degree counters equal to bucket sizes, and the
in/out/und bucket cross-consistency for both endpoints of every edge. -/
def wf (g : CGraph) : Prop :=
  (g.nodes.map (fun n => n.id)).Nodup ∧
  (∀ n ∈ g.nodes,
    n.in_degree = n.in_edges.length ∧
    n.out_degree = n.out_edges.length ∧
    n.und_degree = n.und_edges.length) ∧
  (∀ n ∈ g.nodes, ∀ e ∈ n.in_edges,
    e.directed = true ∧ e.b = n.id ∧
    ∃ m ∈ g.nodes, m.id = e.otherId n.id ∧ e ∈ m.out_edges) ∧
  (∀ n ∈ g.nodes, ∀ e ∈ n.out_edges,
    e.directed = true ∧ e.a = n.id ∧
    ∃ m ∈ g.nodes, m.id = e.otherId n.id ∧ e ∈ m.in_edges) ∧
  (∀ n ∈ g.nodes, ∀ e ∈ n.und_edges,
    e.directed = false ∧ (e.a = n.id ∨ e.b = n.id) ∧
    ∃ m ∈ g.nodes, m.id = e.otherId n.id ∧ e ∈ m.und_edges)

instance : DecidablePred wf := fun g => by
  unfold wf; infer_instance

end CGraph

/-! ## ComputeGraph projections -/
/-- `DEFAULT_WEIGHT` of ComputeGraph. -/
def DEFAULT_WEIGHT : JsNum := JsNum.num 1

/-- The nested adjacency dictionary `{u: {v: weight}}` as a function;
`none` is an absent entry (JS `undefined`). -/
abbrev AdjDict := String → String → Option JsNum

namespace ComputeGraph

/-- Effective weight of a neighbor entry:
`isNaN(ne.edge.getWeight()) ? DEFAULT_WEIGHT : ne.edge.getWeight()`. -/
def effWeight (e : Edge) : JsNum :=
  if e.weight.isNaN then DEFAULT_WEIGHT else e.weight

/-- `adj_list_dict[key][v] || Number.POSITIVE_INFINITY`: an absent or
falsy entry reads as `+Infinity`. -/
def curDist (o : Option JsNum) : JsNum :=
  match o with
  | none => JsNum.posInf
  | some v => if v.falsy then JsNum.posInf else v

/-- Point update of the nested dictionary. -/
def adjUpdate (d : AdjDict) (u v : String) (w : JsNum) : AdjDict :=
  fun x y => if x = u ∧ y = v then some w else d x y

/-- One `neighbors.forEach` step of `adjListW` at outer key `key` and
neighbor entry `(tgt, e)`; in `incoming` mode the mirror entry
`[tgt][key]` is updated with the same value. -/
def adjStep (incoming : Bool) (key : String) (d : AdjDict)
    (tgt : String) (e : Edge) : AdjDict :=
  let cur := curDist (d key tgt)
  let w := effWeight e
  let val := if w.lt cur then w else cur
  let d1 := adjUpdate d key tgt val
  if incoming then adjUpdate d1 tgt key val else d1

/-- The iteration domain per node: `reachNodes()` concatenated with
`prevNodes()` when `incoming`. -/
def nbhd (incoming : Bool) (n : BNode) : List (String × Edge) :=
  if incoming then n.reachNodes ++ n.prevNodes else n.reachNodes

/-- The first loop of `adjListW`: every node key gets an (empty) row,
with `[key][key] = self_dist` when `include_self`. -/
def adjInit (g : CGraph) (include_self : Bool) (self_dist : JsNum) : AdjDict :=
  fun x y =>
    if x = y ∧ include_self ∧ g.nodes.any (fun n => n.id = x)
    then some self_dist else none

/-- `ComputeGraph.adjListW(incoming, include_self, self_dist)`. -/
def adjListW (g : CGraph) (incoming include_self : Bool)
    (self_dist : JsNum) : AdjDict :=
  g.nodes.foldl
    (fun d n => (nbhd incoming n).foldl
      (fun d te => adjStep incoming n.id d te.1 te.2) d)
    (adjInit g include_self self_dist)

/-- JS `isFinite(dict[u][v])`: false on an absent entry. -/
def isFiniteO : Option JsNum → Bool
  | none => false
  | some w => w.isFinite

/-- `ComputeGraph.adjMatrixW(incoming, include_self, self_dist)`:
row/column order is node insertion order, the diagonal is `self_dist`,
other cells are the dictionary entry when finite and `+Infinity`
otherwise. -/
def adjMatrixW (g : CGraph) (incoming include_self : Bool)
    (self_dist : JsNum) : List (List JsNum) :=
  let node_keys := g.nodeIds
  let adjDict := adjListW g incoming include_self self_dist
  (List.range g.nrNodes).map (fun i =>
    (List.range g.nrNodes).map (fun j =>
      if i = j then self_dist
      else
        match adjDict (node_keys.getD i "") (node_keys.getD j "") with
        | some w => if w.isFinite then w else JsNum.posInf
        | none => JsNum.posInf))

/-- `ComputeGraph.adjMatrix()`: the 0/1 matrix over
`adjListW()` with default arguments; diagonal `0`. -/
def adjMatrix (g : CGraph) : List (List ℚ) :=
  let node_keys := g.nodeIds
  let adjDict := adjListW g false false (JsNum.num 0)
  (List.range g.nrNodes).map (fun i =>
    (List.range g.nrNodes).map (fun j =>
      if i = j then 0
      else if isFiniteO (adjDict (node_keys.getD i "") (node_keys.getD j "")) then 1
      else 0))

/-- Modelled from the spec: the injected matrix multiplier
(`this._tf.matMul`, an external capability, §5/§4.6) is assumed to
implement exact matrix multiplication. -/
def matMul (A B : List (List ℚ)) : List (List ℚ) :=
  A.map (fun row =>
    (List.range (B.headD []).length).map (fun j =>
      (row.zip B).foldl (fun s p => s + p.1 * (p.2.getD j 0)) 0))

/-- JS division of finite numbers: sign-correct infinities on a zero
divisor and `0/0 = NaN`. -/
def jsDiv (x d : ℚ) : JsNum :=
  if d = 0 then
    (if x = 0 then JsNum.nan else if 0 < x then JsNum.posInf else JsNum.negInf)
  else JsNum.num (x / d)

/-- `expr || 0`: a falsy value (`NaN`, `0`) becomes `0`. -/
def jsOr0 (v : JsNum) : JsNum := if v.falsy then JsNum.num 0 else v

/-- JS `2 * x`. -/
def jsTwice : JsNum → JsNum
  | JsNum.num q => JsNum.num (2 * q)
  | JsNum.posInf => JsNum.posInf
  | JsNum.negInf => JsNum.negInf
  | _ => JsNum.nan

/-- `ComputeGraph.clustCoef(directed)`: `A³` over the binary adjacency
matrix, then for each `i` in `for (let i in aux3[0])` the value
`(aux3[i][i] / (deg·(deg−1))) || 0`, doubled when directed.  The result
map is keyed by `result[i] = ...`, i.e. by the stringified index `i`,
not by the node id (`keys[i]` is only used to fetch the degree). -/
def clustCoef (g : CGraph) (directed : Bool) : List (String × JsNum) :=
  let adj_list := adjMatrix g
  let aux2 := matMul adj_list adj_list
  let aux3 := matMul adj_list aux2
  let keys := g.nodeIds
  (List.range (aux3.headD []).length).map (fun i =>
    let node := g.getNodeById (keys.getD i "")
    let deg : ℚ := if directed
      then ((node.inDegree + node.outDegree : ℕ) : ℚ)
      else ((node.degree : ℕ) : ℚ)
    let cci := jsOr0 (jsDiv ((aux3.getD i []).getD i 0) (deg * (deg - 1)))
    (toString i, if directed then jsTwice cci else cci))

/-! ### Cell-level analysis of `adjListW` (for claim C2) -/
/-- The value a single `adjStep` writes, as a function of the previous
cell content and the effective edge weight. -/
def wstep (s : Option JsNum) (w : JsNum) : Option JsNum :=
  some (if w.lt (curDist s) then w else curDist s)

/-- A step at outer key `key` and neighbor target `tgt` touches the
cell pair `(u, v)` exactly when it is the direct step `(u, v)` or,
in `incoming` mode, the mirrored step `(v, u)`. -/
def rel (incoming : Bool) (u v key tgt : String) : Prop :=
  (key = u ∧ tgt = v) ∨ (incoming = true ∧ key = v ∧ tgt = u)

instance (incoming : Bool) (u v key tgt : String) :
    Decidable (rel incoming u v key tgt) := by
  unfold rel; infer_instance

/-- The sequence of effective weights written to the cell pair
`(u, v)` over the whole second phase of `adjListW`, in write order. -/
def relWeights (g : CGraph) (incoming : Bool) (u v : String) : List JsNum :=
  g.nodes.flatMap (fun n =>
    ((nbhd incoming n).filter (fun te => rel incoming u v n.id te.1)).map
      (fun te => effWeight te.2))

/-- The edges connecting a node `n` to the node id `x` inside `n`'s
iterated neighborhood (claim C2's edge set). -/
def targets (incoming : Bool) (n : BNode) (x : String) : List Edge :=
  ((nbhd incoming n).filter (fun te => te.1 = x)).map Prod.snd

end ComputeGraph

/-! ### Concrete graphs for claim C2 -/
/-- Parallel directed edge `A→B` of weight `0` (the effective weight is
falsy, which defeats the `|| Infinity` read-back). -/
def eC2a : Edge := ⟨"e1", "e1", "A", "B", true, JsNum.num 0⟩

def eC2b : Edge := ⟨"e2", "e2", "A", "B", true, JsNum.num 5⟩

def nC2A : BNode := ⟨"A", "A", [], [eC2a, eC2b], [], 0, 2, 0, 0⟩

def nC2B : BNode := ⟨"B", "B", [eC2a, eC2b], [], [], 2, 0, 0, 0⟩

def gC2 : CGraph := ⟨[nC2A, nC2B]⟩

def eC2c : Edge := ⟨"e1", "e1", "A", "B", true, JsNum.num 2⟩

def eC2d : Edge := ⟨"e2", "e2", "A", "B", true, JsNum.num 5⟩

def nC2WA : BNode := ⟨"A", "A", [], [eC2c, eC2d], [], 0, 2, 0, 0⟩

def nC2WB : BNode := ⟨"B", "B", [eC2c, eC2d], [], [], 2, 0, 0, 0⟩

def gC2W : CGraph := ⟨[nC2WA, nC2WB]⟩

def nC7 : BNode := ⟨"A", "A", [], [], [], 0, 0, 0, 0⟩

def gC7 : CGraph := ⟨[nC7]⟩

/-! ## Claim C3: `clustCoef` result keys -/
def eT1 : Edge := ⟨"t1", "t1", "A", "B", false, JsNum.undef⟩

def eT2 : Edge := ⟨"t2", "t2", "B", "C", false, JsNum.undef⟩

def eT3 : Edge := ⟨"t3", "t3", "C", "A", false, JsNum.undef⟩

def nTA : BNode := ⟨"A", "A", [], [], [eT1, eT3], 0, 0, 2, 0⟩

def nTB : BNode := ⟨"B", "B", [], [], [eT1, eT2], 0, 0, 2, 0⟩

def nTC : BNode := ⟨"C", "C", [], [], [eT2, eT3], 0, 0, 2, 0⟩

/-- The undirected triangle on nodes `A`, `B`, `C`. -/
def gTri : CGraph := ⟨[nTA, nTB, nTC]⟩

/-! ## PageRankRandomWalk (array and dictionary implementations)

The class state after the constructor has run: `_alpha`, `_alphaDamp`,
`_convergence`, `_maxIterations` and `_init` are plain numbers (the
`init`/`alphaDamp` config functions are evaluated once on the graph). -/
structure PRWalk where
  alpha : ℚ
  alphaDamp : ℚ
  convergence : ℚ
  maxIterations : ℕ
  initVal : ℚ
deriving DecidableEq, Repr

namespace PageRankRandomWalk

/-- The `PR_index` feature: node `i` of the iteration order receives
index `i`, so looking the feature up on a node returns its position. -/
def prIdx (g : CGraph) (id : String) : ℕ :=
  g.nodes.findIdx (fun n => n.id = id)

/-- `setPRArrayDataStructs`, first loop:
`outDeg[i] = node.outDegree() + node.degree()`. -/
def prOutDeg (g : CGraph) : List ℚ :=
  g.nodes.map (fun n => ((n.outDegree + n.degree : ℕ) : ℚ))

/-- `setPRArrayDataStructs`, second loop: `pull[node_idx]` collects, for
each edge of `mergeObjects([node.inEdges(), node.undEdges()])` (in-bucket
then und-bucket, key sets disjoint), the `PR_index` of the edge's other
endpoint (`source = a; if a.id == node.id then source = b`). -/
def prPull (g : CGraph) : List (List ℕ) :=
  g.nodes.map (fun n =>
    (n.in_edges ++ n.und_edges).map (fun e => prIdx g (e.otherId n.id)))

/-- The inner `for source of ds.pull[node]` loop of `getPRArray`:
accumulates `old[source] / outDeg[source]` and throws on a zero
divisor. -/
def prArraySum (old outDeg : List ℚ) : List ℕ → Except String ℚ :=
  List.foldlM (fun s j =>
    if outDeg.getD j 0 = 0
    then Except.error "GOT ZERO DIVISOR !!! -------------------------------------"
    else Except.ok (s + old.getD j 0 / outDeg.getD j 0)) 0

/-- One outer `for node in ds.curr` sweep of `getPRArray`:
`curr[node] = (1-alpha)*pull_rank + alpha/alphaDamp`, accumulating the
L1 delta.  The loop overwrites `curr[i]` for every index `i` in order
while reading only `old`, so it equals rebuilding `curr` afresh. -/
def prArraySweep (pr : PRWalk) (outDeg : List ℚ) (pull : List (List ℕ))
    (old : List ℚ) : Except String (List ℚ × ℚ) := do
  let curr ← pull.mapM (fun pl => do
    let s ← prArraySum old outDeg pl
    pure ((1 - pr.alpha) * s + pr.alpha / pr.alphaDamp))
  pure (curr, ((curr.zip old).foldl (fun d p => d + |p.1 - p.2|) 0))

/-- The `for(let i = 0; i < this._maxIterations; ++i)` loop of
`getPRArray`: sweep, return `curr` when the delta is at most the
convergence threshold, otherwise copy `curr` into `old` and continue;
after the last iteration return the final `curr`. -/
def prArrayLoop (pr : PRWalk) (outDeg : List ℚ) (pull : List (List ℕ)) :
    ℕ → List ℚ → Except String (List ℚ)
  | 0, old => Except.ok old
  | Nat.succ k, old => do
    let cd ← prArraySweep pr outDeg pull old
    if cd.2 ≤ pr.convergence then Except.ok cd.1
    else prArrayLoop pr outDeg pull k cd.1

/-- `getRankMapFromArray`: `result[key] = curr[nodes[key].PR_index]`. -/
def prRankMap (g : CGraph) (curr : List ℚ) : List (String × ℚ) :=
  g.nodes.map (fun n => (n.id, curr.getD (prIdx g n.id) 0))

/-- `PageRankRandomWalk.getPRArray()` over the data structures built by
`setPRArrayDataStructs` (`curr = old = [init, ...]`). -/
def getPRArray (g : CGraph) (pr : PRWalk) : Except String (List (String × ℚ)) := do
  let curr ← prArrayLoop pr (prOutDeg g) (prPull g) pr.maxIterations
    (List.replicate g.nrNodes pr.initVal)
  pure (prRankMap g curr)

/-- `getPRDict`'s preprocessing, per node: `structure[key].deg =
node.outDegree() + node.degree()`, looked up by node id. -/
def prDictDeg (g : CGraph) (id : String) : ℚ :=
  ((g.getNodeById id).outDegree + (g.getNodeById id).degree : ℕ)

/-- `structure[key].inc`: the ids of the incoming (in- or undirected)
neighbors of the node, same order as the array version's pull list. -/
def prDictInc (n : BNode) : List String :=
  (n.in_edges ++ n.und_edges).map (fun e => e.otherId n.id)

/-- Association-list lookup standing in for a JS dictionary read. -/
def dlook (m : List (String × ℚ)) (k : String) : ℚ :=
  ((m.find? (fun p => p.1 = k)).map Prod.snd).getD 0

/-- One sweep of `getPRDict`'s main loop.  As in the array version, each
key is written exactly once per sweep while only `old` is read, so the
in-place update equals rebuilding the map. -/
def prDictSweep (g : CGraph) (pr : PRWalk) (old : List (String × ℚ)) :
    List (String × ℚ) × ℚ :=
  let curr := g.nodes.map (fun n =>
    (n.id, (1 - pr.alpha) *
        ((prDictInc n).foldl (fun s p => s + dlook old p / prDictDeg g p) 0) +
      pr.alpha / pr.alphaDamp))
  (curr, g.nodes.foldl (fun d n => d + |dlook curr n.id - dlook old n.id|) 0)

/-- The main loop of `getPRDict`. -/
def prDictLoop (g : CGraph) (pr : PRWalk) : ℕ → List (String × ℚ) →
    List (String × ℚ)
  | 0, old => old
  | Nat.succ k, old =>
    let cd := prDictSweep g pr old
    if cd.2 ≤ pr.convergence then cd.1
    else prDictLoop g pr k cd.1

/-- `PageRankRandomWalk.getPRDict()`. -/
def getPRDict (g : CGraph) (pr : PRWalk) : List (String × ℚ) :=
  prDictLoop g pr pr.maxIterations (g.nodes.map (fun n => (n.id, pr.initVal)))

/-- The per-sweep update as a pure function of the previous vector:
`curr[i] = (1-alpha)·(Σ_{j ∈ pull[i]} old[j]/outDeg[j]) + alpha/alphaDamp`. -/
def prStep (pr : PRWalk) (outDeg : List ℚ) (pull : List (List ℕ))
    (old : List ℚ) : List ℚ :=
  pull.map (fun pl =>
    (1 - pr.alpha) * (pl.foldl (fun s j => s + old.getD j 0 / outDeg.getD j 0) 0) +
      pr.alpha / pr.alphaDamp)

/-- The L1 delta of one sweep: `Σ_i |curr[i] - old[i]|`. -/
def prDelta (pr : PRWalk) (outDeg : List ℚ) (pull : List (List ℕ))
    (old : List ℚ) : ℚ :=
  ((prStep pr outDeg pull old).zip old).foldl (fun d p => d + |p.1 - p.2|) 0

/-- The rank vector after `k` executed sweeps of the array PageRank. -/
def prCurrSeq (g : CGraph) (pr : PRWalk) (k : ℕ) : List ℚ :=
  (prStep pr (prOutDeg g) (prPull g))^[k] (List.replicate g.nrNodes pr.initVal)

/-- The L1 delta of the `(j+1)`-st sweep of the array PageRank. -/
def prDeltaSeq (g : CGraph) (pr : PRWalk) (j : ℕ) : ℚ :=
  prDelta pr (prOutDeg g) (prPull g) (prCurrSeq g pr j)

/-- The default/absent node used for out-of-range dictionary reads. -/
def dN : BNode := ⟨"", "", [], [], [], 0, 0, 0, 0⟩

end PageRankRandomWalk

namespace BNode

/-! ## BaseNode.addEdge (claim C6) -/
/-- `BaseNode.hasEdgeID`. -/
def hasEdgeID (n : BNode) (id : String) : Bool :=
  bucketHas n.in_edges id || bucketHas n.out_edges id || bucketHas n.und_edges id

/-- `BaseNode.addEdge`.  JS compares endpoints by object identity
(`nodes.a === this`); within a graph that coincides with id equality.
Note the directed else-branch: the code comment says `// nodes.b === this`
but the condition only tests `!this._in_edges[edgeID]`. -/
def addEdge (n : BNode) (e : Edge) : Except String BNode :=
  if e.a ≠ n.id ∧ e.b ≠ n.id then
    Except.error "Cannot add edge that does not connect to this node"
  else if e.directed then
    (if e.a = n.id ∧ bucketHas n.out_edges e.id = false then
      let n1 : BNode := { n with out_edges := n.out_edges ++ [e],
                                 out_degree := n.out_degree + 1 }
      if e.b = n1.id ∧ bucketHas n1.in_edges e.id = false then
        Except.ok { n1 with in_edges := n1.in_edges ++ [e],
                            in_degree := n1.in_degree + 1 }
      else Except.ok n1
    else if bucketHas n.in_edges e.id = false then
      Except.ok { n with in_edges := n.in_edges ++ [e],
                         in_degree := n.in_degree + 1 }
    else Except.ok n)
  else
    if bucketHas n.und_edges e.id then
      Except.error "Cannot add same undirected edge multiple times."
    else Except.ok { n with und_edges := n.und_edges ++ [e],
                            und_degree := n.und_degree + 1 }

/-- `BaseNode.removeEdgeByID`. -/
def removeEdgeByID (n : BNode) (id : String) : Except String BNode :=
  if n.hasEdgeID id = false then
    Except.error "Cannot remove unconnected edge."
  else
    let n1 : BNode := if bucketHas n.und_edges id then
        { n with und_edges := n.und_edges.filter (fun e => ¬(e.id = id)),
                 und_degree := n.und_degree - 1 }
      else n
    let n2 : BNode := if bucketHas n1.in_edges id then
        { n1 with in_edges := n1.in_edges.filter (fun e => ¬(e.id = id)),
                  in_degree := n1.in_degree - 1 }
      else n1
    let n3 : BNode := if bucketHas n2.out_edges id then
        { n2 with out_edges := n2.out_edges.filter (fun e => ¬(e.id = id)),
                  out_degree := n2.out_degree - 1 }
      else n2
    Except.ok n3

end BNode

def eC6 : Edge := ⟨"e1", "e1", "A", "B", true, JsNum.undef⟩

/-- Node `A` that already holds the directed edge `A→B` in its out bucket. -/
def nC6 : BNode := ⟨"A", "A", [], [eC6], [], 0, 1, 0, 0⟩

/-! ## JSONInput edge weights (claim C9) -/
/-- A JSON field value as it reaches `handleEdgeWeights`. -/
inductive JsonVal where
  | jstr (s : String)
  | jnum (q : ℚ)
  | jundef
deriving DecidableEq, Repr

namespace JSONInput

/-- `Number.MAX_VALUE`. -/
def MAX_VALUE : ℚ := 2 ^ 1024 - 2 ^ 971

/-- `Number.MIN_VALUE` (the smallest positive denormal). -/
def MIN_VALUE : ℚ := 1 / 2 ^ 1074

/-- Modelled from the builtin `parseFloat`: parses an optional sign,
integer digits and an optional fraction, ignoring trailing characters;
returns `NaN` when no digits are found.  (Exponents and special forms
are omitted; only the default switch branch of `handleEdgeWeights`
reaches this.) -/
def jsParseFloat (s : String) : JsNum :=
  let cs := s.toList
  let sign : ℚ := match cs with
    | '-' :: _ => -1
    | _ => 1
  let cs2 := match cs with
    | '-' :: rest => rest
    | '+' :: rest => rest
    | _ => cs
  let intPart := cs2.takeWhile Char.isDigit
  let rest := cs2.dropWhile Char.isDigit
  let intVal : ℚ := intPart.foldl (fun n c => 10 * n + ((c.toNat - 48 : ℕ) : ℚ)) 0
  match intPart, rest with
  | [], '.' :: frac =>
    let fd := frac.takeWhile Char.isDigit
    if fd = [] then JsNum.nan
    else JsNum.num (sign *
      (fd.foldl (fun n c => 10 * n + ((c.toNat - 48 : ℕ) : ℚ)) 0 / 10 ^ fd.length))
  | [], _ => JsNum.nan
  | _, '.' :: frac =>
    let fd := frac.takeWhile Char.isDigit
    JsNum.num (sign * (intVal +
      fd.foldl (fun n c => 10 * n + ((c.toNat - 48 : ℕ) : ℚ)) 0 / 10 ^ fd.length))
  | _, _ => JsNum.num (sign * intVal)

/-- `JSONInput.handleEdgeWeights`: the sentinel-string switch with
`parseFloat` as the default branch (`parseFloat(undefined)` is `NaN`). -/
def handleEdgeWeights (w : JsonVal) : JsNum :=
  match w with
  | JsonVal.jstr "undefined" => JsNum.num 1
  | JsonVal.jstr "Infinity" => JsNum.posInf
  | JsonVal.jstr "-Infinity" => JsNum.negInf
  | JsonVal.jstr "MAX" => JsNum.num MAX_VALUE
  | JsonVal.jstr "MIN" => JsNum.num MIN_VALUE
  | JsonVal.jstr s => jsParseFloat s
  | JsonVal.jnum q => JsNum.num q
  | JsonVal.jundef => JsNum.nan

/-- The edge-weight pipeline of `readFromJSON`:
`weight_info = weight_float === weight_float ? weight_float :
DEFAULT_WEIGHT` (the self-comparison is false exactly on `NaN`), and
`edge_weight = weighted_mode ? weight_info : undefined`. -/
def readEdgeWeight (weighted_mode : Bool) (w : JsonVal) : JsNum :=
  let weight_float := handleEdgeWeights w
  let weight_info := if weight_float.isNaN then JsNum.num 1 else weight_float
  if weighted_mode then weight_info else JsNum.undef

/-- Modelled from the spec: `BaseGraph.addEdgeByID` (BaseGraph.ts is not
among the provided sources) creates the edge
`"{src}_{tgt}_{d|u}"` with the computed options; per §6/S6 the edge
carries the computed weight.  The label defaults to the id. -/
def mkEdge (node_id target_id : String) (directed weighted : Bool)
    (w : JsonVal) : Edge :=
  { id := node_id ++ "_" ++ target_id ++ "_" ++ (if directed then "d" else "u"),
    label := node_id ++ "_" ++ target_id ++ "_" ++ (if directed then "d" else "u"),
    a := node_id, b := target_id, directed := directed,
    weight := readEdgeWeight weighted w }

end JSONInput

/-! ## TypedGraph (claims C4 and C5)

JS `Map`s and plain objects are modelled as insertion-ordered
association lists with the usual `get`/`set`/`delete` semantics. -/
/-- `Map.get`. -/
def amGet {α : Type} (l : List (String × α)) (k : String) : Option α :=
  (l.find? (fun p => p.1 = k)).map Prod.snd

/-- `Map.set`: replace in place when the key exists, else append. -/
def amSet {α : Type} (l : List (String × α)) (k : String) (v : α) :
    List (String × α) :=
  if (l.find? (fun p => p.1 = k)).isSome
  then l.map (fun p => if p.1 = k then (k, v) else p)
  else l ++ [(k, v)]

/-- `Map.delete`. -/
def amDelete {α : Type} (l : List (String × α)) (k : String) :
    List (String × α) :=
  l.filter (fun p => ¬(p.1 = k))

/-- `GraphMode` (§4.2): derived from the edge counters. -/
inductive GraphMode where
  | INIT
  | DIRECTED
  | UNDIRECTED
  | MIXED
deriving DecidableEq, Repr

/-- `GraphStats` (§6): `{nr_nodes, nr_dir_edges, nr_und_edges, mode,
density}`. -/
structure GraphStats where
  nr_nodes : ℕ
  nr_dir_edges : ℕ
  nr_und_edges : ℕ
  mode : GraphMode
  density : ℚ
deriving DecidableEq, Repr

/-- Modelled from the spec: the `BaseGraph` container (§3/§4.2 —
`BaseGraph.ts` is not among the provided sources): insertion-ordered
node dictionary and separate directed/undirected edge dictionaries. -/
structure MBaseGraph where
  label : String
  nodes : List (String × BNode)
  dir_edges : List (String × Edge)
  und_edges : List (String × Edge)
deriving DecidableEq, Repr

namespace MBaseGraph

def nrNodes (g : MBaseGraph) : ℕ := g.nodes.length

def nrDirEdges (g : MBaseGraph) : ℕ := g.dir_edges.length

def nrUndEdges (g : MBaseGraph) : ℕ := g.und_edges.length

/-- Modelled from the spec (§4.2): any directed and no undirected edges
→ `DIRECTED`; vice versa → `UNDIRECTED`; both → `MIXED`; neither →
`INIT`. -/
def getMode (g : MBaseGraph) : GraphMode :=
  if 0 < g.nrDirEdges then
    (if 0 < g.nrUndEdges then GraphMode.MIXED else GraphMode.DIRECTED)
  else if 0 < g.nrUndEdges then GraphMode.UNDIRECTED
  else GraphMode.INIT

/-- Modelled from the spec: §6 lists `density` among the stats without a
formula; it is a function of the three counters (directed pairs filled
by directed edges, undirected edges counted twice). -/
def density (g : MBaseGraph) : ℚ :=
  ((g.nrDirEdges + 2 * g.nrUndEdges : ℕ) : ℚ) /
    ((g.nrNodes * (g.nrNodes - 1) : ℕ) : ℚ)

/-- Modelled from the spec (§6): `getStats`. -/
def getStats (g : MBaseGraph) : GraphStats :=
  { nr_nodes := g.nrNodes,
    nr_dir_edges := g.nrDirEdges,
    nr_und_edges := g.nrUndEdges,
    mode := g.getMode,
    density := g.density }

/-- Modelled from the spec (§4.2): `addNode` inserts under the node's
id, failing (falsy return) on a duplicate id. -/
def addNode (g : MBaseGraph) (n : BNode) : Option MBaseGraph :=
  if (amGet g.nodes n.id).isSome then none
  else some { g with nodes := g.nodes ++ [(n.id, n)] }

/-- Modelled from the spec (§4.2, §7): `addEdge` requires both endpoints
to exist and the edge id to be fresh, attaches the edge to its endpoint
nodes via `BaseNode.addEdge` (once for a self-loop), and records it in
the directed or undirected edge dictionary. -/
def addEdge (g : MBaseGraph) (e : Edge) : Option MBaseGraph :=
  if (amGet g.dir_edges e.id).isSome || (amGet g.und_edges e.id).isSome then
    none
  else
    match amGet g.nodes e.a, amGet g.nodes e.b with
    | some na, some nb =>
      if heq : e.a = e.b then
        match na.addEdge e with
        | Except.error _ => none
        | Except.ok na2 =>
          let nodes2 := amSet g.nodes e.a na2
          if e.directed
          then some { g with nodes := nodes2,
                             dir_edges := g.dir_edges ++ [(e.id, e)] }
          else some { g with nodes := nodes2,
                             und_edges := g.und_edges ++ [(e.id, e)] }
      else
        match na.addEdge e, nb.addEdge e with
        | Except.ok na2, Except.ok nb2 =>
          let nodes2 := amSet (amSet g.nodes e.a na2) e.b nb2
          if e.directed
          then some { g with nodes := nodes2,
                             dir_edges := g.dir_edges ++ [(e.id, e)] }
          else some { g with nodes := nodes2,
                             und_edges := g.und_edges ++ [(e.id, e)] }
        | _, _ => none
    | _, _ => none

/-- Modelled from the spec (§4.2, §7): `deleteEdge` removes the edge
from its endpoint nodes (via `BaseNode.removeEdgeByID`) and from the
directed or undirected dictionary; `NOT_FOUND` when absent. -/
def deleteEdge (g : MBaseGraph) (e : Edge) : Option MBaseGraph :=
  if (amGet g.dir_edges e.id).isSome || (amGet g.und_edges e.id).isSome then
    match amGet g.nodes e.a, amGet g.nodes e.b with
    | some na, some nb =>
      if heq : e.a = e.b then
        match na.removeEdgeByID e.id with
        | Except.error _ => none
        | Except.ok na2 =>
          some { g with nodes := amSet g.nodes e.a na2,
                        dir_edges := amDelete g.dir_edges e.id,
                        und_edges := amDelete g.und_edges e.id }
      else
        match na.removeEdgeByID e.id, nb.removeEdgeByID e.id with
        | Except.ok na2, Except.ok nb2 =>
          some { g with nodes := amSet (amSet g.nodes e.a na2) e.b nb2,
                        dir_edges := amDelete g.dir_edges e.id,
                        und_edges := amDelete g.und_edges e.id }
        | _, _ => none
    | _, _ => none
  else none

end MBaseGraph

/-- Modelled from the builtin `String.prototype.toUpperCase`
(per-character uppercasing; Lean's own `String.toUpper` is not
kernel-reducible). -/
def jsToUpper (s : String) : String := ⟨s.toList.map Char.toUpper⟩

def GENERIC_TYPE : String := "GENERIC"

/-- The `TypedGraph` state: the base container plus the typed overlay
maps.  The constructor seeds both overlays with an empty `GENERIC`
bucket. -/
structure TGraph where
  base : MBaseGraph
  typedNodes : List (String × List (String × BNode))
  typedEdges : List (String × List (String × Edge))
deriving DecidableEq, Repr

namespace TGraph

/-- `new TypedGraph(label)`. -/
def mk0 (label : String) : TGraph :=
  ⟨⟨label, [], [], []⟩, [(GENERIC_TYPE, [])], [(GENERIC_TYPE, [])]⟩

def nodeTypes (g : TGraph) : List String := g.typedNodes.map Prod.fst

def edgeTypes (g : TGraph) : List String := g.typedEdges.map Prod.fst

/-- `nrTypedEdges(type)`: size of the bucket named by the uppercased
type, `null` when absent. -/
def nrTypedEdges (g : TGraph) (t : String) : Option ℕ :=
  (amGet g.typedEdges (jsToUpper t)).map List.length

/-- `TypedGraph.addNode`: delegate to the base, then file the node under
`GENERIC` when `id === label.toUpperCase()`, else under the uppercased
label (creating the bucket if needed). -/
def addNode (g : TGraph) (n : BNode) : Option TGraph :=
  match g.base.addNode n with
  | none => none
  | some b =>
    let id := n.id
    let label := jsToUpper n.label
    if id = label then
      some { base := b,
             typedNodes := amSet g.typedNodes GENERIC_TYPE
               (amSet ((amGet g.typedNodes GENERIC_TYPE).getD []) id n),
             typedEdges := g.typedEdges }
    else
      some { base := b,
             typedNodes := amSet g.typedNodes label
               (amSet ((amGet g.typedNodes label).getD []) id n),
             typedEdges := g.typedEdges }

/-- `TypedGraph.addEdge`: same filing procedure as `addNode`. -/
def addEdge (g : TGraph) (e : Edge) : Option TGraph :=
  match g.base.addEdge e with
  | none => none
  | some b =>
    let id := e.id
    let label := jsToUpper e.label
    if id = label then
      some { base := b,
             typedNodes := g.typedNodes,
             typedEdges := amSet g.typedEdges GENERIC_TYPE
               (amSet ((amGet g.typedEdges GENERIC_TYPE).getD []) id e) }
    else
      some { base := b,
             typedNodes := g.typedNodes,
             typedEdges := amSet g.typedEdges label
               (amSet ((amGet g.typedEdges label).getD []) id e) }

/-- `TypedGraph.deleteEdge`: classify by `getLabel() === id ? GENERIC :
label.toUpperCase()` (note: *not* the same test as `addEdge`), remove
from the typed bucket, drop the bucket when its size reaches zero, then
delegate to the base. -/
def deleteEdge (g : TGraph) (e : Edge) : Except String TGraph :=
  let id := e.id
  let label := if e.label = id then GENERIC_TYPE else jsToUpper e.label
  match amGet g.typedEdges label with
  | none => Except.error "Edge type does not exist on this TypedGraph."
  | some inner =>
    match amGet inner id with
    | none =>
      Except.error "This particular edge is nowhere to be found in its typed set."
    | some _ =>
      let inner2 := amDelete inner id
      let typed1 := amSet g.typedEdges label inner2
      let typed2 := if inner2.length = 0 then amDelete typed1 label else typed1
      match g.base.deleteEdge e with
      | none => Except.error "Cannot remove a non-existing edge."
      | some b =>
        Except.ok { base := b, typedNodes := g.typedNodes,
                    typedEdges := typed2 }

/-- `TypedGraphStats` (§6): base stats plus the typed overlays. -/
structure Stats where
  base : GraphStats
  node_types : List String
  edge_types : List String
  typed_nodes : List (String × ℕ)
  typed_edges : List (String × ℕ)
deriving DecidableEq, Repr

/-- `TypedGraph.getStats`. -/
def getStats (g : TGraph) : Stats :=
  { base := g.base.getStats,
    node_types := g.nodeTypes,
    edge_types := g.edgeTypes,
    typed_nodes := g.typedNodes.map (fun p => (p.1, p.2.length)),
    typed_edges := g.typedEdges.map (fun p => (p.1, p.2.length)) }

end TGraph

/-! ### Claim C4: typed-bucket filing -/
def nLower : BNode := ⟨"a", "a", [], [], [], 0, 0, 0, 0⟩

def nPerson : BNode := ⟨"p1", "Person", [], [], [], 0, 0, 0, 0⟩

def tgPerson : TGraph :=
  ⟨⟨"g", [("p1", nPerson)], [], []⟩,
    [(GENERIC_TYPE, []), ("PERSON", [("p1", nPerson)])],
    [(GENERIC_TYPE, [])]⟩

def nWA : BNode := ⟨"A", "A", [], [], [], 0, 0, 0, 0⟩

def nWB : BNode := ⟨"B", "B", [], [], [], 0, 0, 0, 0⟩

def eFriend : Edge := ⟨"e1", "friend", "A", "B", true, JsNum.undef⟩

def tgFr0 : TGraph :=
  ⟨⟨"g", [("A", nWA), ("B", nWB)], [], []⟩,
    [(GENERIC_TYPE, [])], [(GENERIC_TYPE, [])]⟩

def nWA1 : BNode := ⟨"A", "A", [], [eFriend], [], 0, 1, 0, 0⟩

def nWB1 : BNode := ⟨"B", "B", [eFriend], [], [], 1, 0, 0, 0⟩

def tgFr1 : TGraph :=
  ⟨⟨"g", [("A", nWA1), ("B", nWB1)], [("e1", eFriend)], []⟩,
    [(GENERIC_TYPE, [])],
    [(GENERIC_TYPE, []), ("FRIEND", [("e1", eFriend)])]⟩

/-! ### Claim C5: add-then-delete vs `getStats` -/
def eGen : Edge := ⟨"E", "E", "A", "B", true, JsNum.undef⟩

def nWA2 : BNode := ⟨"A", "A", [], [eGen], [], 0, 1, 0, 0⟩

def nWB2 : BNode := ⟨"B", "B", [eGen], [], [], 1, 0, 0, 0⟩

def tgG1 : TGraph :=
  ⟨⟨"g", [("A", nWA2), ("B", nWB2)], [("E", eGen)], []⟩,
    [(GENERIC_TYPE, [])], [(GENERIC_TYPE, [("E", eGen)])]⟩

def tgG2 : TGraph :=
  ⟨⟨"g", [("A", nWA), ("B", nWB)], [], []⟩,
    [(GENERIC_TYPE, [])], []⟩

/-- The out-bucket augmentation performed by `BaseNode.addEdge` on the
source node of a directed edge. -/
def augOut (n : BNode) (e : Edge) : BNode :=
  { n with out_edges := n.out_edges ++ [e], out_degree := n.out_degree + 1 }

/-- The in-bucket augmentation performed on the target node. -/
def augIn (n : BNode) (e : Edge) : BNode :=
  { n with in_edges := n.in_edges ++ [e], in_degree := n.in_degree + 1 }

/-- The und-bucket augmentation performed for an undirected edge. -/
def augUnd (n : BNode) (e : Edge) : BNode :=
  { n with und_edges := n.und_edges ++ [e], und_degree := n.und_degree + 1 }

/-- Both augmentations at once, as happens on a directed self-loop. -/
def augSelf (n : BNode) (e : Edge) : BNode :=
  { n with out_edges := n.out_edges ++ [e], out_degree := n.out_degree + 1,
           in_edges := n.in_edges ++ [e], in_degree := n.in_degree + 1 }

/-! ## Theorems -/

namespace JsNum

theorem lt_irrefl (a : JsNum) : a.lt a = false := by
  cases a <;> simp [lt]

/-- On `NaN`-free values, failing to be below is transitive
(`lt` is the strict order of a linear order there). -/
theorem not_lt_trans {a b c : JsNum} (hb : wellOrdered b)
    (hab : a.lt b = false) (hbc : b.lt c = false) : a.lt c = false := by
  cases a <;> cases b <;> cases c <;>
    simp_all [lt, wellOrdered] <;> linarith

theorem lt_asymm {a b : JsNum} (h : a.lt b = true) : b.lt a = false := by
  cases a <;> cases b <;> simp_all [lt] <;> linarith

end JsNum

namespace ComputeGraph

theorem adjUpdate_same (d : AdjDict) (u v : String) (w : JsNum) :
    adjUpdate d u v w u v = some w := by
  simp [adjUpdate]

theorem adjUpdate_other (d : AdjDict) (u v : String) (w : JsNum)
    (x y : String) (h : ¬(x = u ∧ y = v)) : adjUpdate d u v w x y = d x y := by
  simp [adjUpdate, h]

theorem adjStep_couple (incoming : Bool) (u v key tgt : String) (e : Edge)
    (d : AdjDict) (s : Option JsNum) (hne : u ≠ v)
    (h1 : d u v = s) (h2 : incoming = true → d v u = s) :
    ((adjStep incoming key d tgt e) u v =
      (if rel incoming u v key tgt then wstep s (effWeight e) else s)) ∧
    (incoming = true → (adjStep incoming key d tgt e) v u =
      (if rel incoming u v key tgt then wstep s (effWeight e) else s)) := by
  cases incoming with
  | false =>
    have hstep : adjStep false key d tgt e =
        adjUpdate d key tgt
          (if (effWeight e).lt (curDist (d key tgt)) then effWeight e
           else curDist (d key tgt)) := rfl
    refine ⟨?_, by intro h; cases h⟩
    rw [hstep]
    by_cases hrel : rel false u v key tgt
    · obtain ⟨hk, ht⟩ : key = u ∧ tgt = v := by
        rcases hrel with h | ⟨h, _⟩
        · exact h
        · cases h
      subst hk; subst ht
      rw [if_pos hrel, adjUpdate_same, h1, wstep]
    · have hne2 : ¬(u = key ∧ v = tgt) := fun h => hrel (Or.inl ⟨h.1.symm, h.2.symm⟩)
      rw [if_neg hrel, adjUpdate_other _ _ _ _ _ _ hne2, h1]
  | true =>
    have h2 := h2 rfl
    have hstep : adjStep true key d tgt e =
        adjUpdate
          (adjUpdate d key tgt
            (if (effWeight e).lt (curDist (d key tgt)) then effWeight e
             else curDist (d key tgt)))
          tgt key
          (if (effWeight e).lt (curDist (d key tgt)) then effWeight e
           else curDist (d key tgt)) := rfl
    by_cases hrel : rel true u v key tgt
    · rcases hrel with ⟨hk, ht⟩ | ⟨_, hk, ht⟩
      · subst hk; subst ht
        have hrel : rel true key tgt key tgt := Or.inl ⟨rfl, rfl⟩
        have hm : ¬(key = tgt ∧ tgt = key) := fun h => hne h.1
        refine ⟨?_, fun _ => ?_⟩
        · rw [hstep, if_pos hrel, adjUpdate_other _ _ _ _ _ _ hm,
            adjUpdate_same, h1, wstep]
        · rw [hstep, if_pos hrel, adjUpdate_same, h1, wstep]
      · subst hk; subst ht
        have hrel : rel true tgt key key tgt := Or.inr ⟨rfl, rfl, rfl⟩
        refine ⟨?_, fun _ => ?_⟩
        · rw [hstep, if_pos hrel, adjUpdate_same, h2, wstep]
        · have hm2 : ¬(key = tgt ∧ tgt = key) := fun h => hne h.1.symm
          rw [hstep, if_pos hrel, adjUpdate_other _ _ _ _ _ _ hm2,
            adjUpdate_same, h2, wstep]
    · have hd : ¬(u = key ∧ v = tgt) := fun h => hrel (Or.inl ⟨h.1.symm, h.2.symm⟩)
      have hm : ¬(u = tgt ∧ v = key) := fun h => hrel (Or.inr ⟨rfl, h.2.symm, h.1.symm⟩)
      have hd' : ¬(v = key ∧ u = tgt) := fun h => hrel (Or.inr ⟨rfl, h.1.symm, h.2.symm⟩)
      have hm' : ¬(v = tgt ∧ u = key) := fun h => hrel (Or.inl ⟨h.2.symm, h.1.symm⟩)
      refine ⟨?_, fun _ => ?_⟩
      · rw [hstep, if_neg hrel, adjUpdate_other _ _ _ _ _ _ hm,
          adjUpdate_other _ _ _ _ _ _ hd, h1]
      · rw [hstep, if_neg hrel, adjUpdate_other _ _ _ _ _ _ hm',
          adjUpdate_other _ _ _ _ _ _ hd', h2]

theorem adjInner_couple (incoming : Bool) (u v key : String) (hne : u ≠ v) :
    ∀ (entries : List (String × Edge)) (d : AdjDict) (s : Option JsNum),
    d u v = s → (incoming = true → d v u = s) →
    ((entries.foldl (fun d te => adjStep incoming key d te.1 te.2) d) u v =
      List.foldl wstep s
        ((entries.filter (fun te => rel incoming u v key te.1)).map
          (fun te => effWeight te.2))) ∧
    (incoming = true →
      (entries.foldl (fun d te => adjStep incoming key d te.1 te.2) d) v u =
      List.foldl wstep s
        ((entries.filter (fun te => rel incoming u v key te.1)).map
          (fun te => effWeight te.2)))
  | [], d, s, h1, h2 => by simpa using ⟨h1, h2⟩
  | te :: rest, d, s, h1, h2 => by
    obtain ⟨hstep1, hstep2⟩ :=
      adjStep_couple incoming u v key te.1 te.2 d s hne h1 h2
    by_cases hrel : rel incoming u v key te.1
    · simp only [hrel, if_pos] at hstep1 hstep2
      have ih := adjInner_couple incoming u v key hne rest
        (adjStep incoming key d te.1 te.2) (wstep s (effWeight te.2))
        hstep1 hstep2
      simpa [List.foldl_cons, List.filter_cons, hrel] using ih
    · simp only [hrel, if_neg, not_false_iff] at hstep1 hstep2
      have ih := adjInner_couple incoming u v key hne rest
        (adjStep incoming key d te.1 te.2) s hstep1 hstep2
      simpa [List.foldl_cons, List.filter_cons, hrel] using ih

theorem adjOuter_couple (incoming : Bool) (u v : String) (hne : u ≠ v) :
    ∀ (ns : List BNode) (d : AdjDict) (s : Option JsNum),
    d u v = s → (incoming = true → d v u = s) →
    ((ns.foldl (fun d n => (nbhd incoming n).foldl
        (fun d te => adjStep incoming n.id d te.1 te.2) d) d) u v =
      List.foldl wstep s
        (ns.flatMap (fun n =>
          (((nbhd incoming n).filter (fun te => rel incoming u v n.id te.1)).map
            (fun te => effWeight te.2))))) ∧
    (incoming = true →
      (ns.foldl (fun d n => (nbhd incoming n).foldl
        (fun d te => adjStep incoming n.id d te.1 te.2) d) d) v u =
      List.foldl wstep s
        (ns.flatMap (fun n =>
          (((nbhd incoming n).filter (fun te => rel incoming u v n.id te.1)).map
            (fun te => effWeight te.2)))))
  | [], d, s, h1, h2 => by simpa using ⟨h1, h2⟩
  | n :: rest, d, s, h1, h2 => by
    obtain ⟨hin1, hin2⟩ :=
      adjInner_couple incoming u v n.id hne (nbhd incoming n) d s h1 h2
    have ih := adjOuter_couple incoming u v hne rest
      ((nbhd incoming n).foldl (fun d te => adjStep incoming n.id d te.1 te.2) d)
      (List.foldl wstep s
        (((nbhd incoming n).filter (fun te => rel incoming u v n.id te.1)).map
          (fun te => effWeight te.2)))
      hin1 hin2
    simpa [List.flatMap_cons, List.foldl_append] using ih

/-- The cell `(u, v)` of `adjListW`, for distinct node ids, is the
`wstep`-fold of the effective weights written to it. -/
theorem adjListW_cell (g : CGraph) (incoming include_self : Bool)
    (self_dist : JsNum) (u v : String) (hne : u ≠ v) :
    adjListW g incoming include_self self_dist u v =
      List.foldl wstep none (relWeights g incoming u v) := by
  have hinit1 : adjInit g include_self self_dist u v = none := by
    simp [adjInit, hne]
  have hinit2 : adjInit g include_self self_dist v u = none := by
    simp [adjInit, Ne.symm hne]
  exact (adjOuter_couple incoming u v hne g.nodes
    (adjInit g include_self self_dist) none hinit1 (fun _ => hinit2)).1

/-! ### The `wstep` fold computes a minimum when no weight is falsy -/
theorem curDist_some {m : JsNum} (h : m.falsy = false) :
    curDist (some m) = m := by
  simp [curDist, h]

theorem wstep_none {w : JsNum} (hw : w.wellOrdered) : wstep none w = some w := by
  cases w <;> simp_all [wstep, curDist, JsNum.lt, JsNum.wellOrdered]

theorem wstep_some {m w : JsNum} (h : m.falsy = false) :
    wstep (some m) w = some (if w.lt m then w else m) := by
  simp [wstep, curDist_some h]

theorem fold_min_aux :
    ∀ (rest : List JsNum) (m0 : JsNum), m0.wellOrdered → m0.falsy = false →
    (∀ w ∈ rest, w.wellOrdered ∧ w.falsy = false) →
    ∃ m, List.foldl wstep (some m0) rest = some m ∧ (m = m0 ∨ m ∈ rest) ∧
      m0.lt m = false ∧ ∀ w ∈ rest, w.lt m = false
  | [], m0, _, _, _ => ⟨m0, rfl, Or.inl rfl, JsNum.lt_irrefl m0, by simp⟩
  | w0 :: tl, m0, hwo, hfa, hall => by
    obtain ⟨hwo0, hfa0⟩ := hall w0 (by simp)
    set m1 := if w0.lt m0 then w0 else m0 with hm1
    have hwo1 : m1.wellOrdered := by
      rw [hm1]; split
      · exact hwo0
      · exact hwo
    have hfa1 : m1.falsy = false := by
      rw [hm1]; split
      · exact hfa0
      · exact hfa
    obtain ⟨m, hfold, hmem, hlt1, hlt2⟩ :=
      fold_min_aux tl m1 hwo1 hfa1 (fun w hw => hall w (by simp [hw]))
    refine ⟨m, ?_, ?_, ?_, ?_⟩
    · rw [List.foldl_cons, wstep_some hfa, ← hm1, hfold]
    · rcases hmem with h | h
      · rw [h, hm1]; split
        · exact Or.inr (by simp)
        · exact Or.inl rfl
      · exact Or.inr (by simp [h])
    · have h01 : m0.lt m1 = false := by
        rw [hm1]; split
        · exact JsNum.lt_asymm (by assumption)
        · exact JsNum.lt_irrefl m0
      exact JsNum.not_lt_trans hwo1 h01 hlt1
    · intro w hw
      rcases List.mem_cons.mp hw with h | h
      · subst h
        have hw1 : w.lt m1 = false := by
          rw [hm1]; split
          · exact JsNum.lt_irrefl w
          · simpa using (by assumption : ¬ w.lt m0 = true)
        exact JsNum.not_lt_trans hwo1 hw1 hlt1
      · exact hlt2 w h

theorem fold_min (L : List JsNum) (hne : L ≠ [])
    (hall : ∀ w ∈ L, w.wellOrdered ∧ w.falsy = false) :
    ∃ m, List.foldl wstep none L = some m ∧ m ∈ L ∧
      ∀ w ∈ L, w.lt m = false := by
  match L, hne with
  | w0 :: tl, _ =>
    obtain ⟨hwo0, hfa0⟩ := hall w0 (by simp)
    obtain ⟨m, hfold, hmem, hlt0, hlt⟩ :=
      fold_min_aux tl w0 hwo0 hfa0 (fun w hw => hall w (by simp [hw]))
    refine ⟨m, ?_, ?_, ?_⟩
    · rw [List.foldl_cons, wstep_none hwo0, hfold]
    · rcases hmem with h | h
      · simp [h]
      · simp [h]
    · intro w hw
      rcases List.mem_cons.mp hw with h | h
      · subst h; exact hlt0
      · exact hlt w h

/-! ### Effective weights are `NaN`-free -/
theorem effWeight_wellOrdered (e : Edge) : (effWeight e).wellOrdered := by
  cases h : e.weight <;>
    simp [effWeight, JsNum.isNaN, h, DEFAULT_WEIGHT, JsNum.wellOrdered]

theorem effWeight_falsy {e : Edge} (h : effWeight e ≠ JsNum.num 0) :
    (effWeight e).falsy = false := by
  have hwo := effWeight_wellOrdered e
  cases heq : effWeight e <;> simp_all [JsNum.falsy, JsNum.wellOrdered]

end ComputeGraph

namespace CGraph

theorem id_inj {g : CGraph} (hwf : g.wf) {m n : BNode}
    (hm : m ∈ g.nodes) (hn : n ∈ g.nodes) (h : m.id = n.id) : m = n :=
  List.inj_on_of_nodup_map hwf.1 hm hn h

end CGraph

namespace ComputeGraph

theorem mem_map_pair {l : List Edge} {f : Edge → String} {t : String} {e : Edge} :
    (t, e) ∈ l.map (fun x => (f x, x)) ↔ e ∈ l ∧ t = f e := by
  constructor
  · intro h
    obtain ⟨x, hx, heq⟩ := List.mem_map.mp h
    injection heq with h1 h2
    subst h2
    exact ⟨hx, h1.symm⟩
  · rintro ⟨hl, rfl⟩
    exact List.mem_map.mpr ⟨e, hl, rfl⟩

theorem mem_targets {incoming : Bool} {n : BNode} {x : String} {e : Edge} :
    e ∈ targets incoming n x ↔
      ∃ te ∈ nbhd incoming n, te.1 = x ∧ te.2 = e := by
  simp only [targets, List.mem_map, List.mem_filter, decide_eq_true_eq]
  constructor
  · rintro ⟨te, ⟨hm, hx⟩, he⟩
    exact ⟨te, hm, hx, he⟩
  · rintro ⟨te, hm, hx, he⟩
    exact ⟨te, ⟨hm, hx⟩, he⟩

theorem mem_nbhd_true {n : BNode} {t : String} {e : Edge} :
    (t, e) ∈ nbhd true n ↔
      (e ∈ n.out_edges ∧ e.b = t) ∨
      (e ∈ n.und_edges ∧ (if e.a = n.id then e.b else e.a) = t) ∨
      (e ∈ n.in_edges ∧ e.a = t) := by
  simp [nbhd, BNode.reachNodes, BNode.nextNodes, BNode.connNodes,
    BNode.prevNodes, List.mem_append, mem_map_pair, or_assoc, eq_comm]

/-- In `incoming` mode the neighborhood relation between two distinct
nodes of a well-formed graph is symmetric: every edge connecting `v`
to `u` inside `v`'s iterated neighborhood also connects `u` to `v`
inside `u`'s. -/
theorem targets_symm {g : CGraph} (hwf : g.wf) {u v : BNode}
    (hu : u ∈ g.nodes) (hv : v ∈ g.nodes) (hne : u.id ≠ v.id) {e : Edge}
    (he : e ∈ targets true v u.id) : e ∈ targets true u v.id := by
  have hin := hwf.2.2.1
  have hout := hwf.2.2.2.1
  have hund := hwf.2.2.2.2
  rw [mem_targets] at he ⊢
  obtain ⟨⟨t, e0⟩, hm, hx, he2⟩ := he
  dsimp at hx he2
  subst he2
  subst hx
  rw [mem_nbhd_true] at hm
  rcases hm with ⟨ho, hb⟩ | ⟨ho, hb⟩ | ⟨ho, hb⟩
  · obtain ⟨hd, ha, m, hmm, hmid, hmin⟩ := hout v hv e0 ho
    have hmidu : m.id = u.id := by
      rw [hmid]; simp only [Edge.otherId]; rw [if_pos ha]; exact hb
    have hmu : m = u := CGraph.id_inj hwf hmm hu hmidu
    refine ⟨(e0.a, e0), ?_, ha, rfl⟩
    rw [mem_nbhd_true]
    exact Or.inr (Or.inr ⟨hmu ▸ hmin, rfl⟩)
  · obtain ⟨hd, hab, m, hmm, hmid, hmun⟩ := hund v hv e0 ho
    have hmidu : m.id = u.id := by
      rw [hmid]; simp only [Edge.otherId]; exact hb
    have hmu : m = u := CGraph.id_inj hwf hmm hu hmidu
    refine ⟨((if e0.a = u.id then e0.b else e0.a), e0), ?_, ?_, rfl⟩
    · rw [mem_nbhd_true]
      exact Or.inr (Or.inl ⟨hmu ▸ hmun, rfl⟩)
    · dsimp
      by_cases hcase : e0.a = v.id
      · have hnu : ¬ e0.a = u.id := by rw [hcase]; exact Ne.symm hne
        rw [if_neg hnu, hcase]
      · have ha2 : e0.a = u.id := by rw [← hb, if_neg hcase]
        rw [if_pos ha2]
        rcases hab with h | h
        · exact absurd h hcase
        · exact h
  · obtain ⟨hd, hbv, m, hmm, hmid, hmout⟩ := hin v hv e0 ho
    have hanv : e0.a ≠ v.id := by rw [hb]; exact hne
    have hmidu : m.id = u.id := by
      rw [hmid]; simp only [Edge.otherId]; rw [if_neg hanv]; exact hb
    have hmu : m = u := CGraph.id_inj hwf hmm hu hmidu
    refine ⟨(e0.b, e0), ?_, hbv, rfl⟩
    rw [mem_nbhd_true]
    exact Or.inl ⟨hmu ▸ hmout, rfl⟩

theorem mem_relWeights {g : CGraph} {incoming : Bool} (hwf : g.wf)
    {u v : BNode} (hu : u ∈ g.nodes) (hv : v ∈ g.nodes)
    (hne : u.id ≠ v.id) {w : JsNum}
    (hw : w ∈ relWeights g incoming u.id v.id) :
    ∃ e ∈ targets incoming u v.id, effWeight e = w := by
  simp only [relWeights, List.mem_flatMap, List.mem_map, List.mem_filter] at hw
  obtain ⟨n, hn, te, ⟨hmem, hrel⟩, hww⟩ := hw
  rw [decide_eq_true_eq] at hrel
  rcases hrel with ⟨hk, ht⟩ | ⟨hinc, hk, ht⟩
  · have hnu : n = u := CGraph.id_inj hwf hn hu hk
    exact ⟨te.2, mem_targets.mpr ⟨te, hnu ▸ hmem, ht, rfl⟩, hww⟩
  · have hnv : n = v := CGraph.id_inj hwf hn hv hk
    subst hinc
    have hmem2 : te.2 ∈ targets true v u.id :=
      mem_targets.mpr ⟨te, hnv ▸ hmem, ht, rfl⟩
    exact ⟨te.2, targets_symm hwf hu hv hne hmem2, hww⟩

theorem targets_sub_relWeights {g : CGraph} {incoming : Bool} {u : BNode}
    (hu : u ∈ g.nodes) {vid : String} {e : Edge}
    (he : e ∈ targets incoming u vid) :
    effWeight e ∈ relWeights g incoming u.id vid := by
  rw [mem_targets] at he
  obtain ⟨te, hmem, ht, he2⟩ := he
  simp only [relWeights, List.mem_flatMap]
  refine ⟨u, hu, ?_⟩
  simp only [List.mem_map, List.mem_filter]
  refine ⟨te, ⟨hmem, ?_⟩, by rw [he2]⟩
  rw [decide_eq_true_eq]
  exact Or.inl ⟨rfl, ht⟩

end ComputeGraph

/-- **C2, counterexample.**  The claim says `result[u][v]` is the minimum
effective weight over the parallel edges `u→v`.  On the graph with two
parallel directed edges `A→B` of weights `0` and `5` (in that insertion
order), `adjListW(false, false, 0)` returns `5`: the stored `0` is falsy in
JS, so the `adj_list_dict[key][v] || Infinity` read treats it as absent and
the later edge overwrites it.  The minimum of the effective weights is `0`. -/
theorem C2_counterexample :
    ComputeGraph.adjListW gC2 false false (JsNum.num 0) "A" "B" =
      some (JsNum.num 5) ∧
    eC2a ∈ ComputeGraph.targets false nC2A "B" ∧
    ComputeGraph.effWeight eC2a = JsNum.num 0 ∧
    (JsNum.num 0).lt (JsNum.num 5) = true := by decide

/-- **C2 (amended).**  For every graph and arguments, and every pair of
distinct nodes `u`, `v` of a well-formed graph connected by two or more
parallel edges in the iterated neighborhood of `u`, `adjListW` sets
`result[u][v]` to the minimum effective edge weight over those edges
(`NaN` weight → `1`), *provided* no such edge has effective weight `0`
(a falsy stored weight is read back as `+Infinity` and overwritten). -/
theorem C2_adjListW_parallel_min (g : CGraph) (incoming include_self : Bool)
    (self_dist : JsNum) (u v : BNode) (hwf : g.wf) (hu : u ∈ g.nodes)
    (hv : v ∈ g.nodes) (hne : u.id ≠ v.id)
    (hpar : 2 ≤ (ComputeGraph.targets incoming u v.id).length)
    (hz : ∀ e ∈ ComputeGraph.targets incoming u v.id,
      ComputeGraph.effWeight e ≠ JsNum.num 0) :
    ∃ m, ComputeGraph.adjListW g incoming include_self self_dist u.id v.id =
      some m ∧
    (∃ e ∈ ComputeGraph.targets incoming u v.id,
      ComputeGraph.effWeight e = m) ∧
    ∀ e ∈ ComputeGraph.targets incoming u v.id,
      (ComputeGraph.effWeight e).lt m = false := by
  rw [ComputeGraph.adjListW_cell g incoming include_self self_dist u.id v.id hne]
  have hLne : ComputeGraph.relWeights g incoming u.id v.id ≠ [] := by
    have hlen : 0 < (ComputeGraph.targets incoming u v.id).length := by omega
    obtain ⟨e, he⟩ :=
      List.exists_mem_of_ne_nil _ (List.length_pos.mp hlen)
    exact List.ne_nil_of_mem (ComputeGraph.targets_sub_relWeights hu he)
  have hall : ∀ w ∈ ComputeGraph.relWeights g incoming u.id v.id,
      w.wellOrdered ∧ w.falsy = false := by
    intro w hw
    obtain ⟨e, hmem, heq⟩ := ComputeGraph.mem_relWeights hwf hu hv hne hw
    refine ⟨?_, ?_⟩
    · rw [← heq]; exact ComputeGraph.effWeight_wellOrdered e
    · rw [← heq]; exact ComputeGraph.effWeight_falsy (hz e hmem)
  obtain ⟨m, hm, hmem, hlb⟩ := ComputeGraph.fold_min _ hLne hall
  refine ⟨m, hm, ?_, ?_⟩
  · exact ComputeGraph.mem_relWeights hwf hu hv hne hmem
  · intro e he
    exact hlb _ (ComputeGraph.targets_sub_relWeights hu he)

/-- **C2, witness**: the amended theorem applied to the graph with two
parallel edges `A→B` of weights `2` and `5`. -/
theorem C2_adjListW_parallel_min_witness :
    ∃ m, ComputeGraph.adjListW gC2W false false (JsNum.num 0)
      nC2WA.id nC2WB.id = some m ∧
    (∃ e ∈ ComputeGraph.targets false nC2WA nC2WB.id,
      ComputeGraph.effWeight e = m) ∧
    ∀ e ∈ ComputeGraph.targets false nC2WA nC2WB.id,
      (ComputeGraph.effWeight e).lt m = false :=
  C2_adjListW_parallel_min gC2W false false (JsNum.num 0) nC2WA nC2WB
    (by decide) (by decide) (by decide) (by decide) (by decide) (by decide)

/-! ## Claim C7: finiteness of `adjMatrixW` vs `adjListW` -/
theorem rangeMap_getD {α : Type} {n i : ℕ} (f : ℕ → α) (d : α) (h : i < n) :
    ((List.range n).map f).getD i d = f i := by
  rw [List.getD_eq_getElem?_getD, List.getElem?_map, List.getElem?_range h]
  rfl

/-- **C7, counterexample.**  The claim says cell `(i,j)` of `adjMatrixW` is
finite iff `adjListW[u_i][u_j]` is, *including the diagonal*.  On a one-node
graph with matching arguments `(incoming=false, include_self=false,
self_dist=0)`, the matrix diagonal cell is `self_dist = 0` (finite) while
the dictionary has no entry `["A"]["A"]` (not finite). -/
theorem C7_counterexample :
    (((ComputeGraph.adjMatrixW gC7 false false (JsNum.num 0)).getD 0 []).getD 0
      JsNum.nan).isFinite = true ∧
    ComputeGraph.isFiniteO
      (ComputeGraph.adjListW gC7 false false (JsNum.num 0) "A" "A") = false := by
  decide

/-- **C7 (amended).**  For matching arguments, every *off-diagonal* cell
`(i,j)` of `adjMatrixW` is finite iff `adjListW[u_i][u_j]` is finite; the
diagonal cells are always `self_dist`, independent of the dictionary. -/
theorem C7_adjMatrixW_finite_iff (g : CGraph) (incoming include_self : Bool)
    (self_dist : JsNum) (i j : ℕ) (hi : i < g.nrNodes) (hj : j < g.nrNodes) :
    (i ≠ j →
      (((ComputeGraph.adjMatrixW g incoming include_self self_dist).getD i
          []).getD j JsNum.nan).isFinite =
        ComputeGraph.isFiniteO
          (ComputeGraph.adjListW g incoming include_self self_dist
            (g.nodeIds.getD i "") (g.nodeIds.getD j ""))) ∧
    (i = j →
      ((ComputeGraph.adjMatrixW g incoming include_self self_dist).getD i
          []).getD j JsNum.nan = self_dist) := by
  have hrow : (ComputeGraph.adjMatrixW g incoming include_self self_dist).getD i [] =
      (List.range g.nrNodes).map (fun j =>
        if i = j then self_dist
        else
          match ComputeGraph.adjListW g incoming include_self self_dist
              (g.nodeIds.getD i "") (g.nodeIds.getD j "") with
          | some w => if w.isFinite then w else JsNum.posInf
          | none => JsNum.posInf) := by
    exact rangeMap_getD _ _ hi
  constructor
  · intro hne
    rw [hrow, rangeMap_getD _ _ hj, if_neg hne]
    generalize ComputeGraph.adjListW g incoming include_self self_dist
        (g.nodeIds.getD i "") (g.nodeIds.getD j "") = o
    cases o with
    | none => rfl
    | some w =>
      show (if w.isFinite = true then w else JsNum.posInf).isFinite = w.isFinite
      cases hfin : w.isFinite with
      | true => simpa using hfin
      | false => rfl
  · intro heq
    rw [hrow, rangeMap_getD _ _ hj, if_pos heq]

/-- **C7, witness**: the amended theorem applied to the two-node parallel
edge graph at the off-diagonal cell `(0,1)` and the diagonal cell `(0,0)`. -/
theorem C7_adjMatrixW_finite_iff_witness :
    ((0 : ℕ) ≠ 1 →
      (((ComputeGraph.adjMatrixW gC2W false false (JsNum.num 0)).getD 0
          []).getD 1 JsNum.nan).isFinite =
        ComputeGraph.isFiniteO
          (ComputeGraph.adjListW gC2W false false (JsNum.num 0)
            (gC2W.nodeIds.getD 0 "") (gC2W.nodeIds.getD 1 ""))) ∧
    ((0 : ℕ) = 1 →
      ((ComputeGraph.adjMatrixW gC2W false false (JsNum.num 0)).getD 0
          []).getD 1 JsNum.nan = JsNum.num 0) :=
  C7_adjMatrixW_finite_iff gC2W false false (JsNum.num 0) 0 1
    (by decide) (by decide)

/-- **C3 (code bug demonstrated).**  On the undirected triangle with node
ids `A`, `B`, `C`, `clustCoef(false)` computes the per-node value
`A³[i][i]/(deg·(deg−1)) = 2/2 = 1` correctly, but returns the map keyed by
the stringified indices `"0"`, `"1"`, `"2"` (`result[i] = ...`), not by the
node ids, contradicting the claim (and §2 of the spec: results are maps
from node-id). -/
theorem C3_clustCoef_keyed_by_index :
    ComputeGraph.clustCoef gTri false =
      [("0", JsNum.num 1), ("1", JsNum.num 1), ("2", JsNum.num 1)] ∧
    gTri.nodeIds = ["A", "B", "C"] ∧
    (ComputeGraph.clustCoef gTri false).map Prod.fst ≠ gTri.nodeIds := by
  decide

namespace PageRankRandomWalk

theorem map_getD {α β : Type} {l : List α} (f : α → β) (d : β) {j : ℕ}
    (h : j < l.length) (d' : α) : (l.map f).getD j d = f (l.getD j d') := by
  rw [List.getD_eq_getElem?_getD, List.getElem?_map,
    List.getElem?_eq_getElem h, List.getD_eq_getElem?_getD,
    List.getElem?_eq_getElem h]
  rfl

theorem prIdx_lt {g : CGraph} {m : BNode} (hm : m ∈ g.nodes) :
    prIdx g m.id < g.nodes.length :=
  List.findIdx_lt_length_of_exists ⟨m, hm, by simp⟩

theorem findIdx_prop {α : Type} (p : α → Bool) :
    ∀ (l : List α) (d : α), l.findIdx p < l.length →
      p (l.getD (l.findIdx p) d) = true
  | [], d, h => by simp at h
  | a :: l, d, h => by
    by_cases hpa : p a
    · simp [List.findIdx_cons, hpa]
    · have hstep : (a :: l).findIdx p = (l.findIdx p) + 1 := by
        simp [List.findIdx_cons, hpa]
      rw [hstep] at h ⊢
      simpa using findIdx_prop p l d (Nat.lt_of_succ_lt_succ h)

theorem prIdx_node {g : CGraph} (hwf : g.wf) {m : BNode}
    (hm : m ∈ g.nodes) (d : BNode) : g.nodes.getD (prIdx g m.id) d = m := by
  have hlt := prIdx_lt hm
  have hlt2 : List.findIdx (fun n => n.id = m.id) g.nodes < g.nodes.length := hlt
  have hid : (g.nodes.getD (prIdx g m.id) d).id = m.id := by
    have hp := findIdx_prop (fun n : BNode => n.id = m.id) g.nodes d hlt2
    exact of_decide_eq_true hp
  refine CGraph.id_inj hwf ?_ hm hid
  have hgd : g.nodes.getD (prIdx g m.id) d = g.nodes.get ⟨prIdx g m.id, hlt⟩ := by
    rw [List.getD_eq_getElem?_getD, List.getElem?_eq_getElem hlt]
    rfl
  rw [hgd]
  exact List.get_mem g.nodes _ _

theorem outDeg_at {g : CGraph} (hwf : g.wf) {m : BNode} (hm : m ∈ g.nodes) :
    (prOutDeg g).getD (prIdx g m.id) 0 = ((m.outDegree + m.degree : ℕ) : ℚ) := by
  have hlt := prIdx_lt hm
  rw [prOutDeg, map_getD _ _ hlt m, prIdx_node hwf hm m]

/-- Under the graph invariants, every index occurring in a pull list is
the index of a node with at least one outgoing or undirected edge, so
its `outDeg` entry is at least `1`. -/
theorem prOutDeg_pos {g : CGraph} (hwf : g.wf) {pl : List ℕ}
    (hpl : pl ∈ prPull g) {j : ℕ} (hj : j ∈ pl) :
    1 ≤ (prOutDeg g).getD j 0 := by
  obtain ⟨n, hn, rfl⟩ := List.mem_map.mp hpl
  obtain ⟨e, he, rfl⟩ := List.mem_map.mp hj
  have hdeg := hwf.2.1
  rcases List.mem_append.mp he with hein | heund
  · obtain ⟨hd, hb, m, hmm, hmid, hmout⟩ := hwf.2.2.1 n hn e hein
    rw [← hmid, outDeg_at hwf hmm]
    have h1 : 1 ≤ m.outDegree := by
      rw [BNode.outDegree, (hdeg m hmm).2.1]
      exact List.length_pos.mpr (List.ne_nil_of_mem hmout)
    have : 1 ≤ m.outDegree + m.degree := le_trans h1 (Nat.le_add_right _ _)
    exact_mod_cast this
  · obtain ⟨hd, hab, m, hmm, hmid, hmund⟩ := hwf.2.2.2.2 n hn e heund
    rw [← hmid, outDeg_at hwf hmm]
    have h1 : 1 ≤ m.degree := by
      rw [BNode.degree, (hdeg m hmm).2.2]
      exact List.length_pos.mpr (List.ne_nil_of_mem hmund)
    have : 1 ≤ m.outDegree + m.degree := le_trans h1 (Nat.le_add_left _ _)
    exact_mod_cast this

theorem prArraySum_aux (old outDeg : List ℚ) :
    ∀ (pl : List ℕ) (s : ℚ), (∀ j ∈ pl, outDeg.getD j 0 ≠ 0) →
    List.foldlM (fun s j =>
      if outDeg.getD j 0 = 0
      then Except.error "GOT ZERO DIVISOR !!! -------------------------------------"
      else Except.ok (s + old.getD j 0 / outDeg.getD j 0)) s pl =
    Except.ok (pl.foldl (fun s j => s + old.getD j 0 / outDeg.getD j 0) s)
  | [], s, _ => rfl
  | j :: pl, s, h => by
    have hj : outDeg.getD j 0 ≠ 0 := h j (by simp)
    rw [List.foldlM_cons, if_neg hj]
    show List.foldlM _ _ pl = _
    rw [prArraySum_aux old outDeg pl _ (fun i hi => h i (by simp [hi])),
      List.foldl_cons]

theorem prArraySum_ok (old outDeg : List ℚ) (pl : List ℕ)
    (h : ∀ j ∈ pl, outDeg.getD j 0 ≠ 0) :
    prArraySum old outDeg pl =
      Except.ok (pl.foldl (fun s j => s + old.getD j 0 / outDeg.getD j 0) 0) :=
  prArraySum_aux old outDeg pl 0 h

theorem prSweep_mapM_ok (pr : PRWalk) (outDeg old : List ℚ) :
    ∀ (pls : List (List ℕ)),
    (∀ pl ∈ pls, ∀ j ∈ pl, outDeg.getD j 0 ≠ 0) →
    (pls.mapM (fun pl => do
        let s ← prArraySum old outDeg pl
        pure ((1 - pr.alpha) * s + pr.alpha / pr.alphaDamp)) :
      Except String (List ℚ)) =
    Except.ok (pls.map (fun pl =>
      (1 - pr.alpha) * (pl.foldl (fun s j => s + old.getD j 0 / outDeg.getD j 0) 0) +
        pr.alpha / pr.alphaDamp))
  | [], _ => rfl
  | pl :: rest, h => by
    rw [List.mapM_cons, prArraySum_ok old outDeg pl (h pl (by simp)),
      prSweep_mapM_ok pr outDeg old rest (fun q hq => h q (by simp [hq]))]
    rfl

/-- Whenever every pulled index has a nonzero out-degree, the sweep of
`getPRArray` succeeds and computes `prStep` and its L1 delta. -/
theorem prArraySweep_ok (pr : PRWalk) (outDeg : List ℚ)
    (pull : List (List ℕ)) (old : List ℚ)
    (h : ∀ pl ∈ pull, ∀ j ∈ pl, outDeg.getD j 0 ≠ 0) :
    prArraySweep pr outDeg pull old =
      Except.ok (prStep pr outDeg pull old, prDelta pr outDeg pull old) := by
  rw [prArraySweep, prSweep_mapM_ok pr outDeg old pull h]
  rfl

theorem prOutDeg_ne_zero {g : CGraph} (hwf : g.wf) :
    ∀ pl ∈ prPull g, ∀ j ∈ pl, (prOutDeg g).getD j 0 ≠ 0 := by
  intro pl hpl j hj
  have h1 := prOutDeg_pos hwf hpl hj
  intro h0
  rw [h0] at h1
  exact absurd h1 (by norm_num)

end PageRankRandomWalk

/-- **C8.**  After `setPRArrayDataStructs` has run on a (well-formed)
graph, every index `j` occurring in any pull list satisfies
`outDeg[j] ≥ 1` — each pulled source owns the pulling edge in its out- or
undirected bucket — and consequently the `DIVIDE_BY_ZERO` throw in
`getPRArray` is unreachable: every sweep succeeds. -/
theorem C8_pull_outdeg_positive (g : CGraph) (hwf : g.wf) :
    (∀ pl ∈ PageRankRandomWalk.prPull g, ∀ j ∈ pl,
      1 ≤ (PageRankRandomWalk.prOutDeg g).getD j 0) ∧
    ∀ (pr : PRWalk) (old : List ℚ),
      PageRankRandomWalk.prArraySweep pr (PageRankRandomWalk.prOutDeg g)
        (PageRankRandomWalk.prPull g) old =
      Except.ok
        (PageRankRandomWalk.prStep pr (PageRankRandomWalk.prOutDeg g)
          (PageRankRandomWalk.prPull g) old,
        PageRankRandomWalk.prDelta pr (PageRankRandomWalk.prOutDeg g)
          (PageRankRandomWalk.prPull g) old) := by
  constructor
  · intro pl hpl j hj
    exact PageRankRandomWalk.prOutDeg_pos hwf hpl hj
  · intro pr old
    exact PageRankRandomWalk.prArraySweep_ok pr _ _ old
      (PageRankRandomWalk.prOutDeg_ne_zero hwf)

/-- **C8, witness**: the theorem applied to the undirected triangle. -/
theorem C8_pull_outdeg_positive_witness :
    (∀ pl ∈ PageRankRandomWalk.prPull gTri, ∀ j ∈ pl,
      1 ≤ (PageRankRandomWalk.prOutDeg gTri).getD j 0) ∧
    ∀ (pr : PRWalk) (old : List ℚ),
      PageRankRandomWalk.prArraySweep pr (PageRankRandomWalk.prOutDeg gTri)
        (PageRankRandomWalk.prPull gTri) old =
      Except.ok
        (PageRankRandomWalk.prStep pr (PageRankRandomWalk.prOutDeg gTri)
          (PageRankRandomWalk.prPull gTri) old,
        PageRankRandomWalk.prDelta pr (PageRankRandomWalk.prOutDeg gTri)
          (PageRankRandomWalk.prPull gTri) old) :=
  C8_pull_outdeg_positive gTri (by decide)

namespace PageRankRandomWalk

theorem prArrayLoop_spec (pr : PRWalk) (outDeg : List ℚ)
    (pull : List (List ℕ))
    (hok : ∀ old, prArraySweep pr outDeg pull old =
      Except.ok (prStep pr outDeg pull old, prDelta pr outDeg pull old)) :
    ∀ (fuel : ℕ) (old : List ℚ),
    ∃ k, k ≤ fuel ∧
      prArrayLoop pr outDeg pull fuel old =
        Except.ok ((prStep pr outDeg pull)^[k] old) ∧
      (∀ j, j + 1 < k →
        pr.convergence < prDelta pr outDeg pull ((prStep pr outDeg pull)^[j] old)) ∧
      (k < fuel → 1 ≤ k ∧
        prDelta pr outDeg pull ((prStep pr outDeg pull)^[k - 1] old) ≤ pr.convergence)
  | 0, old =>
    ⟨0, le_refl 0, rfl, fun j hj => absurd hj (by omega),
      fun h => absurd h (by omega)⟩
  | Nat.succ fuel, old => by
    have hunf : prArrayLoop pr outDeg pull (Nat.succ fuel) old =
        (prArraySweep pr outDeg pull old).bind (fun cd =>
          if cd.2 ≤ pr.convergence then Except.ok cd.1
          else prArrayLoop pr outDeg pull fuel cd.1) := rfl
    rw [hok old] at hunf
    by_cases hd : prDelta pr outDeg pull old ≤ pr.convergence
    · refine ⟨1, by omega, ?_, fun j hj => absurd hj (by omega), fun _ => ⟨le_refl 1, ?_⟩⟩
      · rw [hunf]
        show (if prDelta pr outDeg pull old ≤ pr.convergence
          then Except.ok (prStep pr outDeg pull old)
          else prArrayLoop pr outDeg pull fuel (prStep pr outDeg pull old)) = _
        rw [if_pos hd, Function.iterate_one]
      · simpa using hd
    · obtain ⟨k, hk, heq, h3, h4⟩ :=
        prArrayLoop_spec pr outDeg pull hok fuel (prStep pr outDeg pull old)
      refine ⟨k + 1, by omega, ?_, ?_, ?_⟩
      · rw [hunf]
        show (if prDelta pr outDeg pull old ≤ pr.convergence
          then Except.ok (prStep pr outDeg pull old)
          else prArrayLoop pr outDeg pull fuel (prStep pr outDeg pull old)) = _
        rw [if_neg hd, heq, ← Function.iterate_succ_apply]
      · intro j hj
        cases j with
        | zero => simpa using not_le.mp hd
        | succ i =>
          have := h3 i (by omega)
          rwa [← Function.iterate_succ_apply] at this
      · intro hlt
        have := h4 (by omega)
        obtain ⟨hk1, hdk⟩ := this
        obtain ⟨j, rfl⟩ : ∃ j, k = j + 1 := ⟨k - 1, by omega⟩
        refine ⟨by omega, ?_⟩
        have hidx : j + 1 + 1 - 1 = j + 1 := by omega
        rw [hidx, Function.iterate_succ_apply]
        have hidx2 : j + 1 - 1 = j := by omega
        rwa [hidx2] at hdk

/-- `outDeg[j]` expressed through the graph's degree getters (also for
out-of-range `j`, where both sides are `0`). -/
theorem outDeg_getD_eq (g : CGraph) (j : ℕ) :
    (prOutDeg g).getD j 0 =
      (((g.nodes.getD j ⟨"", "", [], [], [], 0, 0, 0, 0⟩).outDegree +
        (g.nodes.getD j ⟨"", "", [], [], [], 0, 0, 0, 0⟩).degree : ℕ) : ℚ) := by
  by_cases h : j < g.nodes.length
  · rw [prOutDeg, map_getD _ _ h ⟨"", "", [], [], [], 0, 0, 0, 0⟩]
  · have h1 : (prOutDeg g).getD j 0 = 0 := by
      rw [List.getD_eq_getElem?_getD, List.getElem?_eq_none]
      · rfl
      · rw [prOutDeg, List.length_map]; omega
    have h2 : g.nodes.getD j ⟨"", "", [], [], [], 0, 0, 0, 0⟩ =
        ⟨"", "", [], [], [], 0, 0, 0, 0⟩ := by
      rw [List.getD_eq_getElem?_getD, List.getElem?_eq_none]
      · rfl
      · omega
    rw [h1, h2]
    rfl

end PageRankRandomWalk

/-- **C1.**  On every well-formed graph, `getPRArray` performs at most
`maxIterations` sweeps: there is a `k ≤ maxIterations` such that the
result is the rank map of the `k`-fold iterate of the per-sweep update,
no earlier sweep's L1 delta was below the convergence threshold, and if
the loop stopped early then the last executed sweep's delta was at most
the threshold.  Moreover each sweep computes, for every index `i` in
insertion order, `curr[i] = (1-alpha)·(Σ_{j ∈ pull[i]} old[j]/outDeg[j])
+ alpha/alphaDamp` with `outDeg[j] = outDegree(j) + degree(j)`. -/
theorem C1_getPRArray_iteration (g : CGraph) (pr : PRWalk) (hwf : g.wf) :
    (∃ k, k ≤ pr.maxIterations ∧
      PageRankRandomWalk.getPRArray g pr =
        Except.ok (PageRankRandomWalk.prRankMap g
          (PageRankRandomWalk.prCurrSeq g pr k)) ∧
      (∀ j, j + 1 < k →
        pr.convergence < PageRankRandomWalk.prDeltaSeq g pr j) ∧
      (k < pr.maxIterations → 1 ≤ k ∧
        PageRankRandomWalk.prDeltaSeq g pr (k - 1) ≤ pr.convergence)) ∧
    (∀ (v : List ℚ) (i : ℕ), i < g.nrNodes →
      (PageRankRandomWalk.prStep pr (PageRankRandomWalk.prOutDeg g)
          (PageRankRandomWalk.prPull g) v).getD i 0 =
        (1 - pr.alpha) *
          (((PageRankRandomWalk.prPull g).getD i []).foldl
            (fun s j => s + v.getD j 0 /
              (((g.nodes.getD j ⟨"", "", [], [], [], 0, 0, 0, 0⟩).outDegree +
                (g.nodes.getD j ⟨"", "", [], [], [], 0, 0, 0, 0⟩).degree : ℕ) : ℚ)) 0) +
          pr.alpha / pr.alphaDamp) := by
  constructor
  · obtain ⟨k, hk, heq, h3, h4⟩ :=
      PageRankRandomWalk.prArrayLoop_spec pr (PageRankRandomWalk.prOutDeg g)
        (PageRankRandomWalk.prPull g)
        (fun old => PageRankRandomWalk.prArraySweep_ok pr _ _ old
          (PageRankRandomWalk.prOutDeg_ne_zero hwf))
        pr.maxIterations (List.replicate g.nrNodes pr.initVal)
    refine ⟨k, hk, ?_, h3, h4⟩
    show (PageRankRandomWalk.prArrayLoop pr _ _ pr.maxIterations _).bind _ = _
    rw [heq]
    rfl
  · intro v i hi
    have hlen : i < (PageRankRandomWalk.prPull g).length := by
      rw [PageRankRandomWalk.prPull, List.length_map]
      exact hi
    rw [PageRankRandomWalk.prStep, PageRankRandomWalk.map_getD _ _ hlen []]
    have hfun : (fun (s : ℚ) (j : ℕ) => s + v.getD j 0 /
          (PageRankRandomWalk.prOutDeg g).getD j 0) =
        (fun (s : ℚ) (j : ℕ) => s + v.getD j 0 /
          (((g.nodes.getD j ⟨"", "", [], [], [], 0, 0, 0, 0⟩).outDegree +
            (g.nodes.getD j ⟨"", "", [], [], [], 0, 0, 0, 0⟩).degree : ℕ) : ℚ)) := by
      funext s j
      rw [PageRankRandomWalk.outDeg_getD_eq]
    rw [hfun]

/-- **C1, witness**: the theorem applied to the undirected triangle with
`alpha = 0.15`, `alphaDamp = 3`, `convergence = 10⁻⁴`, two iterations
and uniform init `1/3`. -/
theorem C1_getPRArray_iteration_witness :
    (∃ k, k ≤ (2 : ℕ) ∧
      PageRankRandomWalk.getPRArray gTri ⟨15/100, 3, 1/10000, 2, 1/3⟩ =
        Except.ok (PageRankRandomWalk.prRankMap gTri
          (PageRankRandomWalk.prCurrSeq gTri ⟨15/100, 3, 1/10000, 2, 1/3⟩ k)) ∧
      (∀ j, j + 1 < k →
        (1 : ℚ)/10000 < PageRankRandomWalk.prDeltaSeq gTri ⟨15/100, 3, 1/10000, 2, 1/3⟩ j) ∧
      (k < 2 → 1 ≤ k ∧
        PageRankRandomWalk.prDeltaSeq gTri ⟨15/100, 3, 1/10000, 2, 1/3⟩ (k - 1) ≤ 1/10000)) ∧
    (∀ (v : List ℚ) (i : ℕ), i < gTri.nrNodes →
      (PageRankRandomWalk.prStep ⟨15/100, 3, 1/10000, 2, 1/3⟩
          (PageRankRandomWalk.prOutDeg gTri)
          (PageRankRandomWalk.prPull gTri) v).getD i 0 =
        (1 - (15 : ℚ)/100) *
          (((PageRankRandomWalk.prPull gTri).getD i []).foldl
            (fun s j => s + v.getD j 0 /
              (((gTri.nodes.getD j ⟨"", "", [], [], [], 0, 0, 0, 0⟩).outDegree +
                (gTri.nodes.getD j ⟨"", "", [], [], [], 0, 0, 0, 0⟩).degree : ℕ) : ℚ)) 0) +
          (15 : ℚ)/100 / 3) :=
  C1_getPRArray_iteration gTri ⟨15/100, 3, 1/10000, 2, 1/3⟩ (by decide)

namespace PageRankRandomWalk

theorem findIdx_of_all_neg {α : Type} (p : α → Bool) :
    ∀ l : List α, (∀ x ∈ l, p x = false) → l.findIdx p = l.length
  | [], _ => rfl
  | a :: l, h => by
    simp [List.findIdx_cons, h a (by simp),
      findIdx_of_all_neg p l (fun x hx => h x (by simp [hx]))]

theorem getD_out_of_range {α : Type} {l : List α} {i : ℕ} (h : l.length ≤ i)
    (d : α) : l.getD i d = d := by
  rw [List.getD_eq_getElem?_getD, List.getElem?_eq_none h]
  rfl

theorem dlook_map_nodes (g : CGraph) (v : List ℚ) (p : String) :
    ∀ ns : List BNode,
    dlook (ns.map (fun n => (n.id, v.getD (prIdx g n.id) 0))) p =
      ((ns.find? (fun n => n.id = p)).map
        (fun n => v.getD (prIdx g n.id) 0)).getD 0
  | [] => rfl
  | n :: ns => by
    have hprev := dlook_map_nodes g v p ns
    rw [dlook] at hprev ⊢
    rw [List.map_cons]
    by_cases h : n.id = p
    · rw [List.find?_cons_of_pos _ (by simpa using h),
        List.find?_cons_of_pos _ (by simpa using h)]
      rfl
    · rw [List.find?_cons_of_neg _ (by simpa using h),
        List.find?_cons_of_neg _ (by simpa using h), hprev]

theorem prIdx_eq_findIdx_nodes (g : CGraph) (p : String) :
    prIdx g p = g.nodes.findIdx (fun n => n.id = p) := rfl

theorem dlook_rankMap {g : CGraph} {v : List ℚ} (hv : v.length = g.nrNodes)
    (p : String) : dlook (prRankMap g v) p = v.getD (prIdx g p) 0 := by
  rw [prRankMap, dlook_map_nodes g v p g.nodes]
  rcases hf : g.nodes.find? (fun n => n.id = p) with _ | n0
  · have hall := List.find?_eq_none.mp hf
    have hidx : prIdx g p = g.nodes.length := by
      rw [prIdx_eq_findIdx_nodes]
      exact findIdx_of_all_neg _ _ (fun x hx => by simpa using hall x hx)
    have hle : v.length ≤ g.nodes.length := by rw [hv]; exact le_refl _
    rw [hf, hidx, getD_out_of_range hle 0]
    rfl
  · have hp := List.find?_some hf
    have hid : n0.id = p := by simpa using hp
    rw [hf]
    show v.getD (prIdx g n0.id) 0 = v.getD (prIdx g p) 0
    rw [hid]

theorem prDictDeg_eq {g : CGraph} (hwf : g.wf) (p : String) :
    prDictDeg g p = (prOutDeg g).getD (prIdx g p) 0 := by
  rw [prDictDeg, CGraph.getNodeById]
  rcases hf : g.nodes.find? (fun n => n.id = p) with _ | n0
  · have hall := List.find?_eq_none.mp hf
    have hidx : prIdx g p = g.nodes.length := by
      rw [prIdx_eq_findIdx_nodes]
      exact findIdx_of_all_neg _ _ (fun x hx => by simpa using hall x hx)
    have hle : (prOutDeg g).length ≤ g.nodes.length := by
      rw [prOutDeg, List.length_map]
    rw [hf, hidx, getD_out_of_range hle 0]
    simp [BNode.outDegree, BNode.degree]
  · have hp := List.find?_some hf
    have hid : n0.id = p := by simpa using hp
    have hmem := List.mem_of_find?_eq_some hf
    rw [hf, ← hid, outDeg_at hwf hmem]
    simp [BNode.outDegree, BNode.degree]

theorem prIdx_get {g : CGraph} (hwf : g.wf) {i : ℕ} (hi : i < g.nodes.length) :
    prIdx g ((g.nodes.get ⟨i, hi⟩).id) = i := by
  have hmem : g.nodes.get ⟨i, hi⟩ ∈ g.nodes := List.get_mem _ _ _
  have hlt := prIdx_lt hmem
  have hnd : g.nodes.Nodup := List.Nodup.of_map _ hwf.1
  have heq : g.nodes.get ⟨prIdx g (g.nodes.get ⟨i, hi⟩).id, hlt⟩ =
      g.nodes.get ⟨i, hi⟩ := by
    have hgd := prIdx_node hwf hmem dN
    rw [List.getD_eq_getElem?_getD, List.getElem?_eq_getElem hlt] at hgd
    exact hgd
  exact congrArg Fin.val ((List.Nodup.get_inj_iff hnd).mp heq)

theorem getD_eq_get {α : Type} {l : List α} {i : ℕ} (h : i < l.length)
    (d : α) : l.getD i d = l.get ⟨i, h⟩ := by
  rw [List.getD_eq_getElem?_getD, List.getElem?_eq_getElem h]
  rfl

theorem foldl_add_abs {α : Type} (f : α → ℚ) :
    ∀ (l : List α) (a : ℚ), l.foldl (fun d x => d + f x) a = a + (l.map f).sum
  | [], a => by simp
  | x :: l, a => by
    rw [List.foldl_cons, foldl_add_abs f l (a + f x), List.map_cons,
      List.sum_cons]
    ring

theorem prStep_length (g : CGraph) (pr : PRWalk) (v : List ℚ) :
    (prStep pr (prOutDeg g) (prPull g) v).length = g.nrNodes := by
  rw [prStep, List.length_map, prPull, List.length_map]
  rfl

/-- The `curr` map produced by one dictionary sweep on the rank map of a
vector is the rank map of the array sweep of that vector. -/
theorem prDictSweep_curr_eq {g : CGraph} (hwf : g.wf) (pr : PRWalk)
    {v : List ℚ} (hv : v.length = g.nrNodes) :
    (prDictSweep g pr (prRankMap g v)).1 =
      prRankMap g (prStep pr (prOutDeg g) (prPull g) v) := by
  show g.nodes.map _ = g.nodes.map _
  refine List.map_congr_left ?_
  intro n hn
  have hlt : prIdx g n.id < (prPull g).length := by
    rw [prPull, List.length_map]
    exact prIdx_lt hn
  have hstep : (prStep pr (prOutDeg g) (prPull g) v).getD (prIdx g n.id) 0 =
      (1 - pr.alpha) * (((n.in_edges ++ n.und_edges).map
          (fun e => prIdx g (e.otherId n.id))).foldl
        (fun s j => s + v.getD j 0 / (prOutDeg g).getD j 0) 0) +
      pr.alpha / pr.alphaDamp := by
    rw [prStep, map_getD _ _ hlt []]
    rw [prPull, map_getD _ _ (prIdx_lt hn) dN, prIdx_node hwf hn dN]
  have hval : (1 - pr.alpha) *
        ((prDictInc n).foldl
          (fun s p => s + dlook (prRankMap g v) p / prDictDeg g p) 0) +
      pr.alpha / pr.alphaDamp =
      (prStep pr (prOutDeg g) (prPull g) v).getD (prIdx g n.id) 0 := by
    rw [hstep, prDictInc, List.foldl_map, List.foldl_map]
    have hfun : (fun (s : ℚ) (e : Edge) =>
          s + dlook (prRankMap g v) (e.otherId n.id) /
            prDictDeg g (e.otherId n.id)) =
        (fun (s : ℚ) (e : Edge) =>
          s + v.getD (prIdx g (e.otherId n.id)) 0 /
            (prOutDeg g).getD (prIdx g (e.otherId n.id)) 0) := by
      funext s e
      rw [dlook_rankMap hv, prDictDeg_eq hwf]
    rw [hfun]
  exact congrArg (Prod.mk n.id) hval

theorem prDictSweep_snd (g : CGraph) (pr : PRWalk)
    (old : List (String × ℚ)) :
    (prDictSweep g pr old).2 = g.nodes.foldl
      (fun d n => d + |dlook (prDictSweep g pr old).1 n.id - dlook old n.id|)
      0 := rfl

/-- The delta of one dictionary sweep equals the array sweep's delta. -/
theorem prDictSweep_delta_eq {g : CGraph} (hwf : g.wf) (pr : PRWalk)
    {v : List ℚ} (hv : v.length = g.nrNodes) :
    (prDictSweep g pr (prRankMap g v)).2 =
      prDelta pr (prOutDeg g) (prPull g) v := by
  have hw := prStep_length g pr v
  rw [prDictSweep_snd, prDictSweep_curr_eq hwf pr hv]
  have hfun : (fun (d : ℚ) (n : BNode) =>
        d + |dlook (prRankMap g (prStep pr (prOutDeg g) (prPull g) v)) n.id -
          dlook (prRankMap g v) n.id|) =
      (fun (d : ℚ) (n : BNode) =>
        d + |(prStep pr (prOutDeg g) (prPull g) v).getD (prIdx g n.id) 0 -
          v.getD (prIdx g n.id) 0|) := by
    funext d n
    rw [dlook_rankMap hw, dlook_rankMap hv]
  rw [hfun, prDelta]
  rw [foldl_add_abs (fun n : BNode =>
    |(prStep pr (prOutDeg g) (prPull g) v).getD (prIdx g n.id) 0 -
      v.getD (prIdx g n.id) 0|) g.nodes 0]
  rw [foldl_add_abs (fun p : ℚ × ℚ => |p.1 - p.2|) _ 0]
  refine congrArg (fun x => (0 : ℚ) + x) (congrArg List.sum ?_)
  refine List.ext_get ?_ ?_
  · rw [List.length_map, List.length_map, List.length_zip, hw, hv]
    simp [CGraph.nrNodes]
  · intro i h1 h2
    rw [List.length_map] at h1 h2
    have hi : i < g.nodes.length := h1
    have hiw : i < (prStep pr (prOutDeg g) (prPull g) v).length := by
      rw [hw]; exact hi
    have hiv : i < v.length := by rw [hv]; exact hi
    rw [List.get_map, List.get_map]
    have hidx := prIdx_get hwf hi
    rw [hidx, getD_eq_get hiw 0, getD_eq_get hiv 0]
    have hzip : (List.zip (prStep pr (prOutDeg g) (prPull g) v) v).get ⟨i, h2⟩ =
        ((prStep pr (prOutDeg g) (prPull g) v).get ⟨i, hiw⟩, v.get ⟨i, hiv⟩) := by
      simp [List.getElem_zip]
    rw [hzip]

/-- Fuel-indexed correspondence between the two main loops. -/
theorem prLoop_corr {g : CGraph} (hwf : g.wf) (pr : PRWalk) :
    ∀ (fuel : ℕ) (v : List ℚ), v.length = g.nrNodes →
    ∃ w, prArrayLoop pr (prOutDeg g) (prPull g) fuel v = Except.ok w ∧
      w.length = g.nrNodes ∧
      prDictLoop g pr fuel (prRankMap g v) = prRankMap g w
  | 0, v, hv => ⟨v, rfl, hv, rfl⟩
  | Nat.succ fuel, v, hv => by
    have hsweep := prArraySweep_ok pr (prOutDeg g) (prPull g) v
      (prOutDeg_ne_zero hwf)
    have hunfA : prArrayLoop pr (prOutDeg g) (prPull g) (Nat.succ fuel) v =
        (prArraySweep pr (prOutDeg g) (prPull g) v).bind (fun cd =>
          if cd.2 ≤ pr.convergence then Except.ok cd.1
          else prArrayLoop pr (prOutDeg g) (prPull g) fuel cd.1) := rfl
    rw [hsweep] at hunfA
    have hcurr := prDictSweep_curr_eq hwf pr hv
    have hdelta := prDictSweep_delta_eq hwf pr hv
    have hunfD : prDictLoop g pr (Nat.succ fuel) (prRankMap g v) =
        (if (prDictSweep g pr (prRankMap g v)).2 ≤ pr.convergence
         then (prDictSweep g pr (prRankMap g v)).1
         else prDictLoop g pr fuel (prDictSweep g pr (prRankMap g v)).1) := rfl
    have hw := prStep_length g pr v
    by_cases hd : prDelta pr (prOutDeg g) (prPull g) v ≤ pr.convergence
    · refine ⟨prStep pr (prOutDeg g) (prPull g) v, ?_, hw, ?_⟩
      · rw [hunfA]
        show (if prDelta pr (prOutDeg g) (prPull g) v ≤ pr.convergence
          then Except.ok (prStep pr (prOutDeg g) (prPull g) v)
          else prArrayLoop pr (prOutDeg g) (prPull g) fuel
            (prStep pr (prOutDeg g) (prPull g) v)) = _
        rw [if_pos hd]
      · rw [hunfD, hdelta, if_pos hd, hcurr]
    · obtain ⟨w, hwA, hwlen, hwD⟩ :=
        prLoop_corr hwf pr fuel (prStep pr (prOutDeg g) (prPull g) v) hw
      refine ⟨w, ?_, hwlen, ?_⟩
      · rw [hunfA]
        show (if prDelta pr (prOutDeg g) (prPull g) v ≤ pr.convergence
          then Except.ok (prStep pr (prOutDeg g) (prPull g) v)
          else prArrayLoop pr (prOutDeg g) (prPull g) fuel
            (prStep pr (prOutDeg g) (prPull g) v)) = _
        rw [if_neg hd, hwA]
      · rw [hunfD, hdelta, if_neg hd, hcurr, hwD]

end PageRankRandomWalk

/-- **C10.**  On every well-formed graph and for every PageRank
configuration, the array implementation `getPRArray` and the dictionary
implementation `getPRDict` return the same rank map: the same node-id
keys in the same insertion order and the same rational rank values
(both run the identical update, delta accumulation and convergence test
over the same order; the array side additionally guards the zero
divisor, which cannot fire). -/
theorem C10_getPRArray_eq_getPRDict (g : CGraph) (pr : PRWalk)
    (hwf : g.wf) :
    PageRankRandomWalk.getPRArray g pr =
      Except.ok (PageRankRandomWalk.getPRDict g pr) := by
  have hv0 : (List.replicate g.nrNodes pr.initVal).length = g.nrNodes :=
    List.length_replicate _ _
  obtain ⟨w, hA, hlen, hD⟩ :=
    PageRankRandomWalk.prLoop_corr hwf pr pr.maxIterations _ hv0
  have hinit : g.nodes.map (fun n => (n.id, pr.initVal)) =
      PageRankRandomWalk.prRankMap g (List.replicate g.nrNodes pr.initVal) := by
    refine List.map_congr_left ?_
    intro n hn
    have hlt : PageRankRandomWalk.prIdx g n.id < g.nrNodes :=
      PageRankRandomWalk.prIdx_lt hn
    have hget : (List.replicate g.nrNodes pr.initVal).getD
        (PageRankRandomWalk.prIdx g n.id) 0 = pr.initVal := by
      rw [List.getD_eq_getElem?_getD, List.getElem?_replicate, if_pos hlt]
      rfl
    rw [hget]
  show (PageRankRandomWalk.prArrayLoop pr (PageRankRandomWalk.prOutDeg g)
      (PageRankRandomWalk.prPull g) pr.maxIterations
      (List.replicate g.nrNodes pr.initVal)).bind
      (fun curr => pure (PageRankRandomWalk.prRankMap g curr)) = _
  rw [hA]
  show Except.ok (PageRankRandomWalk.prRankMap g w) = _
  rw [PageRankRandomWalk.getPRDict, hinit, hD]

/-- **C10, witness**: array and dictionary PageRank agree on the
undirected triangle with defaults `alpha = 0.15`, `alphaDamp = n = 3`,
`convergence = 10⁻⁴`, `init = 1/3` and five iterations. -/
theorem C10_getPRArray_eq_getPRDict_witness :
    PageRankRandomWalk.getPRArray gTri ⟨15/100, 3, 1/10000, 5, 1/3⟩ =
      Except.ok (PageRankRandomWalk.getPRDict gTri ⟨15/100, 3, 1/10000, 5, 1/3⟩) :=
  C10_getPRArray_eq_getPRDict gTri ⟨15/100, 3, 1/10000, 5, 1/3⟩ (by decide)

/-- **C6 (code bug demonstrated).**  The claim (and the spec's addEdge
rules, and the code's own `// nodes.b === this` comment) says a repeated
`addEdge` of a directed out-edge `(n→b)`, `b ≠ n`, already in `n`'s out
bucket leaves buckets and degree counters unchanged.  The code's
else-branch only tests `!this._in_edges[edgeID]`, so the duplicate edge is
added to the **in** bucket and `in_degree` is incremented. -/
theorem C6_duplicate_out_edge_pollutes_in_bucket :
    eC6.b ≠ nC6.id ∧
    BNode.bucketHas nC6.out_edges eC6.id = true ∧
    BNode.addEdge nC6 eC6 =
      Except.ok { nC6 with in_edges := [eC6], in_degree := 1 } ∧
    ({ nC6 with in_edges := [eC6], in_degree := 1 } : BNode) ≠ nC6 := by
  decide

/-- **C9.**  In weighted mode, a JSON edge entry whose weight field is the
string `"Infinity"` yields an edge of weight `+Infinity`, and one whose
weight field is the string `"undefined"` yields an edge of weight `1` —
for any endpoints and direction. -/
theorem C9_json_sentinel_weights :
    ∀ (a b : String) (directed : Bool),
      (JSONInput.mkEdge a b directed true (JsonVal.jstr "Infinity")).weight =
        JsNum.posInf ∧
      (JSONInput.mkEdge a b directed true (JsonVal.jstr "undefined")).weight =
        JsNum.num 1 :=
  fun a b directed => ⟨rfl, rfl⟩

theorem find?_replace {α : Type} (k : String) (v : α) :
    ∀ l : List (String × α), (l.find? (fun p => p.1 = k)).isSome = true →
    (l.map (fun p => if p.1 = k then (k, v) else p)).find?
      (fun p => p.1 = k) = some (k, v)
  | [], h => by simp [List.find?] at h
  | p0 :: l, h => by
    by_cases h0 : p0.1 = k
    · rw [List.map_cons, if_pos h0, List.find?_cons_of_pos _ (by simp)]
    · rw [List.find?_cons_of_neg _ (by simpa using h0)] at h
      rw [List.map_cons, if_neg h0,
        List.find?_cons_of_neg _ (by simpa using h0)]
      exact find?_replace k v l h

theorem find?_append_fresh {α : Type} (k : String) (v : α) :
    ∀ l : List (String × α), l.find? (fun p => p.1 = k) = none →
    (l ++ [(k, v)]).find? (fun p => p.1 = k) = some (k, v)
  | [], _ => by simp
  | p0 :: l, h => by
    have h0 : ¬(p0.1 = k) := by
      intro hc
      rw [List.find?_cons_of_pos _ (by simpa using hc)] at h
      cases h
    rw [List.find?_cons_of_neg _ (by simpa using h0)] at h
    rw [List.cons_append, List.find?_cons_of_neg _ (by simpa using h0)]
    exact find?_append_fresh k v l h

theorem amGet_amSet_same {α : Type} (l : List (String × α)) (k : String)
    (v : α) : amGet (amSet l k v) k = some v := by
  rw [amSet]
  by_cases h : (l.find? (fun p => p.1 = k)).isSome
  · rw [if_pos h, amGet, find?_replace k v l h]
    rfl
  · have hn : l.find? (fun p => p.1 = k) = none :=
      Option.not_isSome_iff_eq_none.mp h
    rw [if_neg h, amGet, find?_append_fresh k v l hn]
    rfl

theorem find?_map_replace_other {α : Type} (k k2 : String) (v : α)
    (hne : ¬(k2 = k)) :
    ∀ l : List (String × α),
    (l.map (fun p => if p.1 = k then (k, v) else p)).find?
      (fun p => p.1 = k2) = l.find? (fun p => p.1 = k2)
  | [] => rfl
  | p0 :: l => by
    by_cases h0 : p0.1 = k
    · have hnk2 : ¬(p0.1 = k2) := by rw [h0]; exact fun hc => hne hc.symm
      have hne2 : ¬(k = k2) := fun hc => hne hc.symm
      rw [List.map_cons, if_pos h0,
        List.find?_cons_of_neg _ (by simpa using hne2),
        List.find?_cons_of_neg _ (by simpa using hnk2)]
      exact find?_map_replace_other k k2 v hne l
    · by_cases h2 : p0.1 = k2
      · rw [List.map_cons, if_neg h0,
          List.find?_cons_of_pos _ (by simpa using h2),
          List.find?_cons_of_pos _ (by simpa using h2)]
      · rw [List.map_cons, if_neg h0,
          List.find?_cons_of_neg _ (by simpa using h2),
          List.find?_cons_of_neg _ (by simpa using h2)]
        exact find?_map_replace_other k k2 v hne l

theorem amGet_amSet_other {α : Type} (l : List (String × α))
    (k k2 : String) (v : α) (hne : ¬(k2 = k)) :
    amGet (amSet l k v) k2 = amGet l k2 := by
  rw [amSet]
  by_cases h : (l.find? (fun p => p.1 = k)).isSome
  · rw [if_pos h, amGet, find?_map_replace_other k k2 v hne l]
    rfl
  · rw [if_neg h, amGet, List.find?_append]
    have hne2 : ¬(k = k2) := fun hc => hne hc.symm
    rcases hf : l.find? (fun p => p.1 = k2) with _ | p
    · simp [amGet, hf, hne2]
    · simp [amGet, hf]

theorem amDelete_amSet_cancel {α : Type} (l : List (String × α))
    (k : String) (v : α) (h : l.find? (fun p => p.1 = k) = none) :
    amDelete (amSet l k v) k = l := by
  have hall := List.find?_eq_none.mp h
  rw [amSet, if_neg (by rw [h]; exact Bool.false_ne_true)]
  rw [amDelete, List.filter_append]
  have h1 : l.filter (fun p => ¬(p.1 = k)) = l :=
    List.filter_eq_self.mpr (fun p hp => by simpa using hall p hp)
  have h2 : ([(k, v)] : List (String × α)).filter (fun p => ¬(p.1 = k)) = [] := by
    simp
  rw [h1, h2, List.append_nil]

theorem map_replace_eq_self {α : Type} (k : String) (v : α) :
    ∀ l : List (String × α), (l.map Prod.fst).Nodup → amGet l k = some v →
    l.map (fun p => if p.1 = k then (k, v) else p) = l
  | [], _, h => by simp [amGet, List.find?] at h
  | p0 :: l, hnd, h => by
    rw [List.map_cons] at hnd
    obtain ⟨hnotin, hnd2⟩ := List.nodup_cons.mp hnd
    by_cases h0 : p0.1 = k
    · have hv : p0.2 = v := by
        rw [amGet, List.find?_cons_of_pos _ (by simpa using h0)] at h
        simpa using h
      have hall : ∀ p ∈ l, ¬(p.1 = k) := by
        intro p hp hc
        exact hnotin (List.mem_map.mpr ⟨p, hp, by rw [hc, h0]⟩)
      have hhead : ((k, v) : String × α) = p0 := by rw [← h0, ← hv]
      have htail : l.map (fun p => if p.1 = k then (k, v) else p) = l :=
        List.map_congr_left (fun p hp => if_neg (hall p hp)) |>.trans (List.map_id l)
      rw [List.map_cons, if_pos h0, htail, hhead]
    · rw [amGet, List.find?_cons_of_neg _ (by simpa using h0)] at h
      rw [List.map_cons, if_neg h0,
        map_replace_eq_self k v l hnd2 h]

theorem amSet_eq_self {α : Type} (l : List (String × α)) (k : String)
    (v : α) (hnd : (l.map Prod.fst).Nodup) (h : amGet l k = some v) :
    amSet l k v = l := by
  have hsome : (l.find? (fun p => p.1 = k)).isSome := by
    rw [amGet] at h
    rcases hf : l.find? (fun p => p.1 = k) with _ | p
    · rw [hf] at h; cases h
    · rw [hf]; rfl
  rw [amSet, if_pos hsome]
  exact map_replace_eq_self k v l hnd h

theorem amSet_amSet_same {α : Type} (l : List (String × α)) (k : String)
    (v w : α) : amSet (amSet l k v) k w = amSet l k w := by
  by_cases h : (l.find? (fun p => p.1 = k)).isSome
  · have h2 : ((amSet l k v).find? (fun p => p.1 = k)).isSome = true := by
      rw [amSet, if_pos h, find?_replace k v l h]; rfl
    have hL : amSet l k v = l.map (fun p => if p.1 = k then (k, v) else p) := by
      rw [amSet, if_pos h]
    have hW : amSet l k w = l.map (fun p => if p.1 = k then (k, w) else p) := by
      rw [amSet, if_pos h]
    rw [amSet, if_pos h2, hL, hW, List.map_map]
    refine List.map_congr_left ?_
    intro p _
    by_cases h0 : p.1 = k
    · simp [Function.comp, h0]
    · simp [Function.comp, h0]
  · have hn : l.find? (fun p => p.1 = k) = none :=
      Option.not_isSome_iff_eq_none.mp h
    have hall := List.find?_eq_none.mp hn
    have h2 : ((amSet l k v).find? (fun p => p.1 = k)).isSome = true := by
      rw [amSet, if_neg h, find?_append_fresh k v l hn]; rfl
    have hL : amSet l k v = l ++ [(k, v)] := by rw [amSet, if_neg h]
    have hW : amSet l k w = l ++ [(k, w)] := by rw [amSet, if_neg h]
    rw [amSet, if_pos h2, hL, hW, List.map_append]
    have h1 : l.map (fun p => if p.1 = k then (k, w) else p) = l :=
      (List.map_congr_left (fun p hp => if_neg (by simpa using hall p hp))).trans
        (List.map_id l)
    rw [h1]
    simp

theorem amSet_length {α : Type} (l : List (String × α)) (k : String)
    (v : α) (h : (amGet l k).isSome) : (amSet l k v).length = l.length := by
  have hsome : (l.find? (fun p => p.1 = k)).isSome := by
    rw [amGet] at h
    rcases hf : l.find? (fun p => p.1 = k) with _ | p
    · rw [hf] at h; cases h
    · rw [hf]; rfl
  rw [amSet, if_pos hsome, List.length_map]

/-- **C4, counterexample.**  The claim says an entity whose label equals
its id is stored in the reserved `GENERIC` bucket.  The code compares
`id === label.toUpperCase()`, so the node with `id = label = "a"` lands
in a fresh bucket `"A"` while `GENERIC` stays empty. -/
theorem C4_counterexample :
    nLower.label = nLower.id ∧
    TGraph.addNode (TGraph.mk0 "g") nLower =
      some ⟨⟨"g", [("a", nLower)], [], []⟩,
        [(GENERIC_TYPE, []), ("A", [("a", nLower)])],
        [(GENERIC_TYPE, [])]⟩ ∧
    amGet [(GENERIC_TYPE, ([] : List (String × BNode))),
      ("A", [("a", nLower)])] GENERIC_TYPE = some [] := by
  decide

/-- **C4 (amended).**  `TypedGraph.addNode` / `TypedGraph.addEdge` store
the entity in the reserved `GENERIC` bucket iff its id equals its
*uppercased* label, and otherwise in the bucket named by the uppercased
label. -/
theorem C4_typed_bucket_uppercase :
    (∀ (g g' : TGraph) (n : BNode), TGraph.addNode g n = some g' →
      amGet ((amGet g'.typedNodes
          (if n.id = jsToUpper n.label then GENERIC_TYPE else jsToUpper n.label)).getD [])
        n.id = some n) ∧
    (∀ (g g' : TGraph) (e : Edge), TGraph.addEdge g e = some g' →
      amGet ((amGet g'.typedEdges
          (if e.id = jsToUpper e.label then GENERIC_TYPE else jsToUpper e.label)).getD [])
        e.id = some e) := by
  constructor
  · intro g g' n h
    rcases hb : g.base.addNode n with _ | b
    · rw [TGraph.addNode, hb] at h
      cases h
    · rw [TGraph.addNode, hb] at h
      dsimp only at h
      by_cases hid : n.id = jsToUpper n.label
      · rw [if_pos hid] at h ⊢
        cases h
        show amGet ((amGet (amSet g.typedNodes GENERIC_TYPE _) GENERIC_TYPE).getD []) n.id = some n
        rw [amGet_amSet_same, Option.getD_some, amGet_amSet_same]
      · rw [if_neg hid] at h ⊢
        cases h
        show amGet ((amGet (amSet g.typedNodes (jsToUpper n.label) _) (jsToUpper n.label)).getD []) n.id = some n
        rw [amGet_amSet_same, Option.getD_some, amGet_amSet_same]
  · intro g g' e h
    rcases hb : g.base.addEdge e with _ | b
    · rw [TGraph.addEdge, hb] at h
      cases h
    · rw [TGraph.addEdge, hb] at h
      dsimp only at h
      by_cases hid : e.id = jsToUpper e.label
      · rw [if_pos hid] at h ⊢
        cases h
        show amGet ((amGet (amSet g.typedEdges GENERIC_TYPE _) GENERIC_TYPE).getD []) e.id = some e
        rw [amGet_amSet_same, Option.getD_some, amGet_amSet_same]
      · rw [if_neg hid] at h ⊢
        cases h
        show amGet ((amGet (amSet g.typedEdges (jsToUpper e.label) _) (jsToUpper e.label)).getD []) e.id = some e
        rw [amGet_amSet_same, Option.getD_some, amGet_amSet_same]

/-- **C4, witness**: the amended theorem applied to a `Person`-labelled
node and a `friend`-labelled edge. -/
theorem C4_typed_bucket_uppercase_witness :
    amGet ((amGet tgPerson.typedNodes
        (if nPerson.id = jsToUpper nPerson.label then GENERIC_TYPE
         else jsToUpper nPerson.label)).getD []) nPerson.id = some nPerson ∧
    amGet ((amGet tgFr1.typedEdges
        (if eFriend.id = jsToUpper eFriend.label then GENERIC_TYPE
         else jsToUpper eFriend.label)).getD []) eFriend.id = some eFriend :=
  ⟨C4_typed_bucket_uppercase.1 (TGraph.mk0 "g") tgPerson nPerson (by decide),
   C4_typed_bucket_uppercase.2 tgFr0 tgFr1 eFriend (by decide)⟩

/-- **C5, counterexample.**  Adding and then deleting the edge with
`id = label = "E"` on a typed graph succeeds, but the edge is filed in
the reserved `GENERIC` bucket, and `deleteEdge` *deletes the emptied
`GENERIC` bucket*, so `getStats` does not return to its prior value:
`edge_types` drops from `["GENERIC"]` to `[]`. -/
theorem C5_counterexample :
    TGraph.addEdge tgFr0 eGen = some tgG1 ∧
    TGraph.deleteEdge tgG1 eGen = Except.ok tgG2 ∧
    (TGraph.getStats tgFr0).edge_types = [GENERIC_TYPE] ∧
    (TGraph.getStats tgG2).edge_types = [] ∧
    TGraph.getStats tgG2 ≠ TGraph.getStats tgFr0 := by
  decide

theorem hasEdgeID_false_parts {n : BNode} {id : String}
    (h : n.hasEdgeID id = false) :
    BNode.bucketHas n.in_edges id = false ∧
    BNode.bucketHas n.out_edges id = false ∧
    BNode.bucketHas n.und_edges id = false := by
  rw [BNode.hasEdgeID] at h
  rcases Bool.or_eq_false_iff.mp h with ⟨h12, h3⟩
  rcases Bool.or_eq_false_iff.mp h12 with ⟨h1, h2⟩
  exact ⟨h1, h2, h3⟩

theorem filter_bucket_fresh {bucket : List Edge} {id : String}
    (h : BNode.bucketHas bucket id = false) :
    bucket.filter (fun e => ¬(e.id = id)) = bucket := by
  rw [BNode.bucketHas] at h
  refine List.filter_eq_self.mpr ?_
  intro e he
  have := List.any_eq_false.mp h e he
  simpa using this

theorem bucketHas_append_self (bucket : List Edge) (e : Edge) :
    BNode.bucketHas (bucket ++ [e]) e.id = true := by
  simp [BNode.bucketHas]

theorem bucketHas_append_frozen {bucket : List Edge} {id : String}
    (e : Edge) (h : BNode.bucketHas bucket id = false)
    (hne : ¬(e.id = id)) :
    BNode.bucketHas (bucket ++ [e]) id = false := by
  rw [BNode.bucketHas] at h ⊢
  simp [List.any_append, h, hne]

theorem filter_append_self {bucket : List Edge} {e : Edge}
    (h : BNode.bucketHas bucket e.id = false) :
    (bucket ++ [e]).filter (fun x => ¬(x.id = e.id)) = bucket := by
  rw [List.filter_append, filter_bucket_fresh h]
  simp

theorem addEdge_dir_src {na : BNode} {e : Edge} (hdir : e.directed = true)
    (hid : na.id = e.a) (hne : ¬(e.b = na.id))
    (hout : BNode.bucketHas na.out_edges e.id = false) :
    na.addEdge e = Except.ok
      { na with out_edges := na.out_edges ++ [e],
                out_degree := na.out_degree + 1 } := by
  rw [BNode.addEdge, if_neg (fun h => h.1 hid.symm), if_pos hdir,
    if_pos ⟨hid.symm, hout⟩, if_neg (fun h => hne h.1)]

theorem addEdge_dir_tgt {nb : BNode} {e : Edge} (hdir : e.directed = true)
    (hid : nb.id = e.b) (hne : ¬(e.a = nb.id))
    (hps : ¬(e.a = nb.id ∧ BNode.bucketHas nb.out_edges e.id = false))
    (hin : BNode.bucketHas nb.in_edges e.id = false) :
    nb.addEdge e = Except.ok
      { nb with in_edges := nb.in_edges ++ [e],
                in_degree := nb.in_degree + 1 } := by
  rw [BNode.addEdge, if_neg (fun h => h.2 hid.symm), if_pos hdir,
    if_neg hps, if_pos hin]

theorem addEdge_dir_self {na : BNode} {e : Edge} (hdir : e.directed = true)
    (hida : na.id = e.a) (hidb : na.id = e.b)
    (hout : BNode.bucketHas na.out_edges e.id = false)
    (hin : BNode.bucketHas na.in_edges e.id = false) :
    na.addEdge e = Except.ok
      { na with out_edges := na.out_edges ++ [e],
                out_degree := na.out_degree + 1,
                in_edges := na.in_edges ++ [e],
                in_degree := na.in_degree + 1 } := by
  rw [BNode.addEdge, if_neg (fun h => h.1 hida.symm), if_pos hdir,
    if_pos ⟨hida.symm, hout⟩, if_pos ⟨hidb.symm, hin⟩]

theorem addEdge_und_node {n : BNode} {e : Edge} (hdir : e.directed = false)
    (hid : e.a = n.id ∨ e.b = n.id)
    (hund : BNode.bucketHas n.und_edges e.id = false) :
    n.addEdge e = Except.ok
      { n with und_edges := n.und_edges ++ [e],
               und_degree := n.und_degree + 1 } := by
  have h1 : ¬(e.a ≠ n.id ∧ e.b ≠ n.id) := by
    rcases hid with h | h
    · exact fun hc => hc.1 h
    · exact fun hc => hc.2 h
  rw [BNode.addEdge, if_neg h1, if_neg (by simp [hdir]),
    if_neg (by simp [hund])]

theorem filter_bucket_bang {bucket : List Edge} {eid : String}
    (h : BNode.bucketHas bucket eid = false) :
    bucket.filter (fun x => !decide (x.id = eid)) = bucket := by
  induction bucket with
  | nil => rfl
  | cons a t ih =>
    rw [BNode.bucketHas, List.any_cons, Bool.or_eq_false_iff] at h
    rw [List.filter_cons, if_pos (by simp [h.1]), ih h.2]

theorem removeEdge_out_aug {na : BNode} {e : Edge}
    (h : na.hasEdgeID e.id = false) :
    ({ na with out_edges := na.out_edges ++ [e],
               out_degree := na.out_degree + 1 } : BNode).removeEdgeByID
      e.id = Except.ok na := by
  obtain ⟨hin, hout, hund⟩ := hasEdgeID_false_parts h
  simp [BNode.removeEdgeByID, BNode.hasEdgeID, bucketHas_append_self, hin,
    hund, hout, filter_bucket_bang hout]

theorem removeEdge_in_aug {nb : BNode} {e : Edge}
    (h : nb.hasEdgeID e.id = false) :
    ({ nb with in_edges := nb.in_edges ++ [e],
               in_degree := nb.in_degree + 1 } : BNode).removeEdgeByID
      e.id = Except.ok nb := by
  obtain ⟨hin, hout, hund⟩ := hasEdgeID_false_parts h
  simp [BNode.removeEdgeByID, BNode.hasEdgeID, bucketHas_append_self, hout,
    hund, hin, filter_bucket_bang hin]

theorem removeEdge_und_aug {n : BNode} {e : Edge}
    (h : n.hasEdgeID e.id = false) :
    ({ n with und_edges := n.und_edges ++ [e],
              und_degree := n.und_degree + 1 } : BNode).removeEdgeByID
      e.id = Except.ok n := by
  obtain ⟨hin, hout, hund⟩ := hasEdgeID_false_parts h
  simp [BNode.removeEdgeByID, BNode.hasEdgeID, bucketHas_append_self, hout,
    hin, hund, filter_bucket_bang hund]

theorem removeEdge_self_aug {na : BNode} {e : Edge}
    (h : na.hasEdgeID e.id = false) :
    ({ na with out_edges := na.out_edges ++ [e],
               out_degree := na.out_degree + 1,
               in_edges := na.in_edges ++ [e],
               in_degree := na.in_degree + 1 } : BNode).removeEdgeByID
      e.id = Except.ok na := by
  obtain ⟨hin, hout, hund⟩ := hasEdgeID_false_parts h
  simp [BNode.removeEdgeByID, BNode.hasEdgeID, bucketHas_append_self, hund,
    filter_bucket_bang hout, filter_bucket_bang hin]

theorem amGet_none_find {α : Type} {l : List (String × α)} {k : String}
    (h : amGet l k = none) : l.find? (fun p => p.1 = k) = none := by
  rw [amGet] at h
  rcases hf : l.find? (fun p => p.1 = k) with _ | p
  · exact hf
  · rw [hf] at h; cases h

theorem amGet_append_self {α : Type} {l : List (String × α)} {k : String}
    (v : α) (h : amGet l k = none) : amGet (l ++ [(k, v)]) k = some v := by
  rw [amGet, find?_append_fresh k v l (amGet_none_find h)]; rfl

theorem amDelete_fresh {α : Type} {l : List (String × α)} {k : String}
    (h : amGet l k = none) : amDelete l k = l := by
  have hall := List.find?_eq_none.mp (amGet_none_find h)
  exact List.filter_eq_self.mpr (fun p hp => by simpa using hall p hp)

theorem amDelete_append_cancel {α : Type} {l : List (String × α)}
    {k : String} (v : α) (h : amGet l k = none) :
    amDelete (l ++ [(k, v)]) k = l := by
  have hs : amSet l k v = l ++ [(k, v)] := by
    rw [amSet, if_neg (by rw [amGet_none_find h]; exact Bool.false_ne_true)]
  rw [← hs]
  exact amDelete_amSet_cancel l k v (amGet_none_find h)

theorem amSet_len2 {α : Type} (l : List (String × α)) (a : String)
    (va wa : α) (ha : (amGet l a).isSome) :
    (amSet (amSet l a va) a wa).length = l.length := by
  have h1 : (amGet (amSet l a va) a).isSome := by
    rw [amGet_amSet_same]; rfl
  rw [amSet_length _ _ _ h1, amSet_length _ _ _ ha]

theorem amSet_len4 {α : Type} (l : List (String × α)) (a b : String)
    (va vb wa wb : α) (ha : (amGet l a).isSome) (hb : (amGet l b).isSome)
    (hne : ¬(a = b)) :
    (amSet (amSet (amSet (amSet l a va) b vb) a wa) b wb).length =
      l.length := by
  have hne2 : ¬(b = a) := fun hc => hne hc.symm
  have h1 : (amGet (amSet l a va) b).isSome := by
    rw [amGet_amSet_other _ _ _ _ hne2]; exact hb
  have h2 : (amGet (amSet (amSet l a va) b vb) a).isSome := by
    rw [amGet_amSet_other _ _ _ _ hne, amGet_amSet_same]; rfl
  have h3 : (amGet (amSet (amSet (amSet l a va) b vb) a wa) b).isSome := by
    rw [amGet_amSet_other _ _ _ _ hne2, amGet_amSet_same]; rfl
  rw [amSet_length _ _ _ h3, amSet_length _ _ _ h2,
    amSet_length _ _ _ h1, amSet_length _ _ _ ha]

theorem getStats_congr {b g : MBaseGraph}
    (h1 : b.nodes.length = g.nodes.length)
    (h2 : b.dir_edges = g.dir_edges) (h3 : b.und_edges = g.und_edges) :
    b.getStats = g.getStats := by
  simp only [MBaseGraph.getStats, MBaseGraph.getMode, MBaseGraph.density,
    MBaseGraph.nrNodes, MBaseGraph.nrDirEdges, MBaseGraph.nrUndEdges,
    h1, h2, h3]

theorem MBaseGraph.add_delete_edge (g : MBaseGraph) (e : Edge)
    (na nb : BNode)
    (hfd : amGet g.dir_edges e.id = none)
    (hfu : amGet g.und_edges e.id = none)
    (hna : amGet g.nodes e.a = some na) (hnaid : na.id = e.a)
    (hnaF : na.hasEdgeID e.id = false)
    (hnb : amGet g.nodes e.b = some nb) (hnbid : nb.id = e.b)
    (hnbF : nb.hasEdgeID e.id = false) :
    ∃ b1 b2 : MBaseGraph, g.addEdge e = some b1 ∧
      b1.deleteEdge e = some b2 ∧
      b2.label = g.label ∧ b2.nodes.length = g.nodes.length ∧
      b2.dir_edges = g.dir_edges ∧ b2.und_edges = g.und_edges := by
  obtain ⟨hinFa, houtFa, hundFa⟩ := hasEdgeID_false_parts hnaF
  obtain ⟨hinFb, houtFb, hundFb⟩ := hasEdgeID_false_parts hnbF
  have hnas : (amGet g.nodes e.a).isSome := by rw [hna]; rfl
  have hnbs : (amGet g.nodes e.b).isSome := by rw [hnb]; rfl
  by_cases heq : e.a = e.b
  · by_cases hdir : e.directed = true
    · -- directed self-loop
      have haa : na.addEdge e = Except.ok (augSelf na e) :=
        addEdge_dir_self hdir hnaid (hnaid.trans heq) houtFa hinFa
      have hra : (augSelf na e).removeEdgeByID e.id = Except.ok na :=
        removeEdge_self_aug hnaF
      have hadd : g.addEdge e = some
          { g with nodes := amSet g.nodes e.a (augSelf na e),
                   dir_edges := g.dir_edges ++ [(e.id, e)] } := by
        rw [MBaseGraph.addEdge,
          if_neg (by rw [hfd, hfu]; exact Bool.false_ne_true), hna, hnb]
        dsimp only
        rw [dif_pos heq, haa]
        dsimp only
        rw [if_pos hdir]
      have hdel : MBaseGraph.deleteEdge
          { g with nodes := amSet g.nodes e.a (augSelf na e),
                   dir_edges := g.dir_edges ++ [(e.id, e)] } e = some
          { g with nodes := amSet (amSet g.nodes e.a (augSelf na e)) e.a na,
                   dir_edges := amDelete (g.dir_edges ++ [(e.id, e)]) e.id,
                   und_edges := amDelete g.und_edges e.id } := by
        rw [MBaseGraph.deleteEdge]
        dsimp only
        rw [← heq, amGet_append_self e hfd,
          if_pos (by exact rfl), amGet_amSet_same]
        dsimp only
        rw [dif_pos rfl, hra]
      exact ⟨_, _, hadd, hdel, rfl, amSet_len2 g.nodes e.a _ _ hnas,
        amDelete_append_cancel e hfd, amDelete_fresh hfu⟩
    · -- undirected self-loop
      have hdirF : e.directed = false := by
        revert hdir; cases e.directed <;> simp
      have haa : na.addEdge e = Except.ok (augUnd na e) :=
        addEdge_und_node hdirF (Or.inl hnaid.symm) hundFa
      have hra : (augUnd na e).removeEdgeByID e.id = Except.ok na :=
        removeEdge_und_aug hnaF
      have hadd : g.addEdge e = some
          { g with nodes := amSet g.nodes e.a (augUnd na e),
                   und_edges := g.und_edges ++ [(e.id, e)] } := by
        rw [MBaseGraph.addEdge,
          if_neg (by rw [hfd, hfu]; exact Bool.false_ne_true), hna, hnb]
        dsimp only
        rw [dif_pos heq, haa]
        dsimp only
        rw [if_neg (by rw [hdirF]; exact Bool.false_ne_true)]
      have hdel : MBaseGraph.deleteEdge
          { g with nodes := amSet g.nodes e.a (augUnd na e),
                   und_edges := g.und_edges ++ [(e.id, e)] } e = some
          { g with nodes := amSet (amSet g.nodes e.a (augUnd na e)) e.a na,
                   dir_edges := amDelete g.dir_edges e.id,
                   und_edges := amDelete (g.und_edges ++ [(e.id, e)]) e.id } := by
        rw [MBaseGraph.deleteEdge]
        dsimp only
        rw [← heq, hfd, amGet_append_self e hfu,
          if_pos (by exact rfl), amGet_amSet_same]
        dsimp only
        rw [dif_pos rfl, hra]
      exact ⟨_, _, hadd, hdel, rfl, amSet_len2 g.nodes e.a _ _ hnas,
        amDelete_fresh hfd, amDelete_append_cancel e hfu⟩
  · have hne2 : ¬(e.b = e.a) := fun hc => heq hc.symm
    by_cases hdir : e.directed = true
    · -- directed, distinct endpoints
      have hneba : ¬(e.b = na.id) := fun hc => heq (hc.trans hnaid).symm
      have hneab : ¬(e.a = nb.id) := fun hc => heq (hc.trans hnbid)
      have haa : na.addEdge e = Except.ok (augOut na e) :=
        addEdge_dir_src hdir hnaid hneba houtFa
      have hbb : nb.addEdge e = Except.ok (augIn nb e) :=
        addEdge_dir_tgt hdir hnbid hneab (fun hc => hneab hc.1) hinFb
      have hga : amGet (amSet (amSet g.nodes e.a (augOut na e)) e.b
          (augIn nb e)) e.a = some (augOut na e) := by
        rw [amGet_amSet_other _ _ _ _ heq, amGet_amSet_same]
      have hgb : amGet (amSet (amSet g.nodes e.a (augOut na e)) e.b
          (augIn nb e)) e.b = some (augIn nb e) := amGet_amSet_same _ _ _
      have hra : (augOut na e).removeEdgeByID e.id = Except.ok na :=
        removeEdge_out_aug hnaF
      have hrb : (augIn nb e).removeEdgeByID e.id = Except.ok nb :=
        removeEdge_in_aug hnbF
      have hadd : g.addEdge e = some
          { g with nodes := amSet (amSet g.nodes e.a (augOut na e)) e.b
                     (augIn nb e),
                   dir_edges := g.dir_edges ++ [(e.id, e)] } := by
        rw [MBaseGraph.addEdge,
          if_neg (by rw [hfd, hfu]; exact Bool.false_ne_true), hna, hnb]
        dsimp only
        rw [dif_neg heq, haa, hbb]
        dsimp only
        rw [if_pos hdir]
      have hdel : MBaseGraph.deleteEdge
          { g with nodes := amSet (amSet g.nodes e.a (augOut na e)) e.b
                     (augIn nb e),
                   dir_edges := g.dir_edges ++ [(e.id, e)] } e = some
          { g with nodes := amSet (amSet (amSet (amSet g.nodes e.a
                     (augOut na e)) e.b (augIn nb e)) e.a na) e.b nb,
                   dir_edges := amDelete (g.dir_edges ++ [(e.id, e)]) e.id,
                   und_edges := amDelete g.und_edges e.id } := by
        rw [MBaseGraph.deleteEdge]
        dsimp only
        rw [amGet_append_self e hfd, if_pos (by exact rfl), hga, hgb]
        dsimp only
        rw [dif_neg heq, hra, hrb]
      exact ⟨_, _, hadd, hdel, rfl,
        amSet_len4 g.nodes e.a e.b _ _ _ _ hnas hnbs heq,
        amDelete_append_cancel e hfd, amDelete_fresh hfu⟩
    · -- undirected, distinct endpoints
      have hdirF : e.directed = false := by
        revert hdir; cases e.directed <;> simp
      have haa : na.addEdge e = Except.ok (augUnd na e) :=
        addEdge_und_node hdirF (Or.inl hnaid.symm) hundFa
      have hbb : nb.addEdge e = Except.ok (augUnd nb e) :=
        addEdge_und_node hdirF (Or.inr hnbid.symm) hundFb
      have hga : amGet (amSet (amSet g.nodes e.a (augUnd na e)) e.b
          (augUnd nb e)) e.a = some (augUnd na e) := by
        rw [amGet_amSet_other _ _ _ _ heq, amGet_amSet_same]
      have hgb : amGet (amSet (amSet g.nodes e.a (augUnd na e)) e.b
          (augUnd nb e)) e.b = some (augUnd nb e) := amGet_amSet_same _ _ _
      have hra : (augUnd na e).removeEdgeByID e.id = Except.ok na :=
        removeEdge_und_aug hnaF
      have hrb : (augUnd nb e).removeEdgeByID e.id = Except.ok nb :=
        removeEdge_und_aug hnbF
      have hadd : g.addEdge e = some
          { g with nodes := amSet (amSet g.nodes e.a (augUnd na e)) e.b
                     (augUnd nb e),
                   und_edges := g.und_edges ++ [(e.id, e)] } := by
        rw [MBaseGraph.addEdge,
          if_neg (by rw [hfd, hfu]; exact Bool.false_ne_true), hna, hnb]
        dsimp only
        rw [dif_neg heq, haa, hbb]
        dsimp only
        rw [if_neg (by rw [hdirF]; exact Bool.false_ne_true)]
      have hdel : MBaseGraph.deleteEdge
          { g with nodes := amSet (amSet g.nodes e.a (augUnd na e)) e.b
                     (augUnd nb e),
                   und_edges := g.und_edges ++ [(e.id, e)] } e = some
          { g with nodes := amSet (amSet (amSet (amSet g.nodes e.a
                     (augUnd na e)) e.b (augUnd nb e)) e.a na) e.b nb,
                   dir_edges := amDelete g.dir_edges e.id,
                   und_edges := amDelete (g.und_edges ++ [(e.id, e)]) e.id } := by
        rw [MBaseGraph.deleteEdge]
        dsimp only
        rw [hfd, amGet_append_self e hfu, if_pos (by exact rfl), hga, hgb]
        dsimp only
        rw [dif_neg heq, hra, hrb]
      exact ⟨_, _, hadd, hdel, rfl,
        amSet_len4 g.nodes e.a e.b _ _ _ _ hnas hnbs heq,
        amDelete_fresh hfd, amDelete_append_cancel e hfu⟩

/-- **C5 (amended).**  On a `TypedGraph`, `addEdge(e)` followed by
`deleteEdge(e)` succeeds and restores `getStats()` — *provided* the two
classification tests agree on a non-`GENERIC` bucket
(`e.label ≠ e.id` and `e.id ≠ e.label.toUpperCase()`) and that bucket is
either absent or non-empty with `e.id` fresh in it.  (The original
unconditional claim is false: when the edge is filed under `GENERIC` —
or, more generally, when its typed bucket becomes empty on deletion —
`deleteEdge` removes the bucket itself, and `edge_types`/`typed_edges`
in `getStats()` change; and an edge with `e.label = e.id ≠
e.label.toUpperCase()` is filed in one bucket and looked up in another.) -/
theorem C5_addEdge_deleteEdge_restores_getStats (g : TGraph) (e : Edge)
    (na nb : BNode)
    (hfd : amGet g.base.dir_edges e.id = none)
    (hfu : amGet g.base.und_edges e.id = none)
    (hna : amGet g.base.nodes e.a = some na) (hnaid : na.id = e.a)
    (hnaF : na.hasEdgeID e.id = false)
    (hnb : amGet g.base.nodes e.b = some nb) (hnbid : nb.id = e.b)
    (hnbF : nb.hasEdgeID e.id = false)
    (hlab1 : ¬(e.label = e.id)) (hlab2 : ¬(e.id = jsToUpper e.label))
    (hndT : (g.typedEdges.map Prod.fst).Nodup)
    (hbucket : amGet g.typedEdges (jsToUpper e.label) = none ∨
      ∃ l, amGet g.typedEdges (jsToUpper e.label) = some l ∧ ¬(l = []) ∧
        amGet l e.id = none) :
    ∃ g1 g2 : TGraph, TGraph.addEdge g e = some g1 ∧
      TGraph.deleteEdge g1 e = Except.ok g2 ∧
      TGraph.getStats g2 = TGraph.getStats g := by
  obtain ⟨b1, b2, hadd, hdel, hlab, hlen, hdirE, hundE⟩ :=
    MBaseGraph.add_delete_edge g.base e na nb hfd hfu hna hnaid hnaF
      hnb hnbid hnbF
  have haddT : TGraph.addEdge g e = some
      ⟨b1, g.typedNodes, amSet g.typedEdges (jsToUpper e.label)
        (amSet ((amGet g.typedEdges (jsToUpper e.label)).getD [])
          e.id e)⟩ := by
    rw [TGraph.addEdge, hadd]
    dsimp only
    rw [if_neg hlab2]
  have hfresh0 : ((amGet g.typedEdges (jsToUpper e.label)).getD
      []).find? (fun p => p.1 = e.id) = none := by
    rcases hbucket with h0 | ⟨l, hsome, hnil, hfr⟩
    · rw [h0]; rfl
    · rw [hsome]; exact amGet_none_find hfr
  have hinner2 : amDelete (amSet ((amGet g.typedEdges
      (jsToUpper e.label)).getD []) e.id e) e.id =
      (amGet g.typedEdges (jsToUpper e.label)).getD [] :=
    amDelete_amSet_cancel _ _ _ hfresh0
  have hbstats : b2.getStats = g.base.getStats :=
    getStats_congr hlen hdirE hundE
  have hstats : TGraph.getStats ⟨b2, g.typedNodes, g.typedEdges⟩ =
      TGraph.getStats g := by
    rw [TGraph.getStats, TGraph.getStats]
    dsimp only [TGraph.nodeTypes, TGraph.edgeTypes]
    rw [hbstats]
  rcases hbucket with h0 | ⟨l, hsome, hnil, hfr⟩
  · have hg0 : (amGet g.typedEdges (jsToUpper e.label)).getD [] =
        ([] : List (String × Edge)) := by rw [h0]; rfl
    have hdelT : TGraph.deleteEdge
        ⟨b1, g.typedNodes, amSet g.typedEdges (jsToUpper e.label)
          (amSet ((amGet g.typedEdges (jsToUpper e.label)).getD [])
            e.id e)⟩ e =
        Except.ok ⟨b2, g.typedNodes, g.typedEdges⟩ := by
      rw [TGraph.deleteEdge]
      dsimp only
      rw [if_neg hlab1, amGet_amSet_same]
      dsimp only
      rw [amGet_amSet_same]
      dsimp only
      rw [hinner2, amSet_amSet_same, hg0]
      rw [if_pos List.length_nil,
        amDelete_amSet_cancel _ _ _ (amGet_none_find h0), hdel]
    exact ⟨_, _, haddT, hdelT, hstats⟩
  · have hg0 : (amGet g.typedEdges (jsToUpper e.label)).getD [] = l := by
      rw [hsome]; rfl
    have hdelT : TGraph.deleteEdge
        ⟨b1, g.typedNodes, amSet g.typedEdges (jsToUpper e.label)
          (amSet ((amGet g.typedEdges (jsToUpper e.label)).getD [])
            e.id e)⟩ e =
        Except.ok ⟨b2, g.typedNodes, g.typedEdges⟩ := by
      rw [TGraph.deleteEdge]
      dsimp only
      rw [if_neg hlab1, amGet_amSet_same]
      dsimp only
      rw [amGet_amSet_same]
      dsimp only
      rw [hinner2, amSet_amSet_same, hg0]
      rw [if_neg (fun hc => hnil (List.length_eq_zero.mp hc)),
        amSet_eq_self _ _ _ hndT hsome, hdel]
    exact ⟨_, _, haddT, hdelT, hstats⟩

/-- **C5, witness**: the amended theorem at the concrete two-node graph
with the `friend`-labelled edge `A→B`. -/
theorem C5_addEdge_deleteEdge_restores_getStats_witness :
    ∃ g1 g2 : TGraph, TGraph.addEdge tgFr0 eFriend = some g1 ∧
      TGraph.deleteEdge g1 eFriend = Except.ok g2 ∧
      TGraph.getStats g2 = TGraph.getStats tgFr0 :=
  C5_addEdge_deleteEdge_restores_getStats tgFr0 eFriend nWA nWB
    (by decide) (by decide) (by decide) (by decide) (by decide)
    (by decide) (by decide) (by decide) (by decide) (by decide)
    (by decide) (Or.inl (by decide))
